import Mathlib

/-!
Verification development for the span-tree reconstruction engine, tree
filters and waterfall row-packer of the `next-network-devtools` repository.

The TypeScript source keeps the span tree as a flat JavaScript object
(`SpanTree = Record<string, SpanNode>`) whose nodes are mutable objects;
`children` arrays hold references to node objects that are always also
stored in the map under a known key (every pushed child has just been
written to the map, and no key is ever rebound to a different object).
We therefore embed the tree as an insertion-ordered association list from
keys to node values and embed `children` as lists of keys; object mutation
becomes updating the map at the object's key.  The module-level
`pendingEndEvents` map is made explicit as the second component of the
engine state, threaded through every application in program order.

Numbers carried by events are epoch milliseconds; we embed them as `Int`
(so `Math.floor`/`Math.ceil` on them are the identity), and the fractional
percentages computed by the waterfall layout as `ℚ`.
-/

namespace NND

/-- Payload reference `parentSpan: {spanId, traceId}` of a span record
(`src/unnamed/part_003`, interface `Span`). -/
structure ParentSpanRef where
  spanId : String
  traceId : String
deriving DecidableEq, Repr

/-- `Span` payload of span-start/span-end events (`src/unnamed/part_003`).
`end` is written `«end»` because `end` is a Lean keyword. -/
structure Span where
  id : String
  start : Int
  «end» : Option Int
  spanId : Option String
  traceId : Option String
  parentSpan : Option ParentSpanRef
deriving DecidableEq, Repr

/-- `RequestSpan` payload (`src/unnamed/part_003`): a `Span` plus HTTP
request data.  Headers are embedded as an association list. -/
structure RequestSpan where
  id : String
  start : Int
  «end» : Option Int
  spanId : Option String
  traceId : Option String
  parentSpan : Option ParentSpanRef
  method : String
  url : String
  headers : List (String × String)
  body : Option String
deriving DecidableEq, Repr

/-- `ResponseSpan` payload (`src/unnamed/part_003`). -/
structure ResponseSpan where
  id : String
  start : Int
  «end» : Option Int
  spanId : Option String
  traceId : Option String
  parentSpan : Option ParentSpanRef
  status : Int
  statusText : String
  headers : List (String × String)
  body : Option String
deriving DecidableEq, Repr

/-- The `serverSpan` sub-object of a `SpanNode`
(`src/packages/web-extension/utils/spans.ts`). -/
structure ServerSpanData where
  start : Option Span
  «end» : Option Span
  isActive : Bool
deriving DecidableEq, Repr

/-- `SpanNode` (`src/packages/web-extension/utils/spans.ts`).  `children`
holds the keys of the referenced nodes (see the module docstring). -/
structure SpanNode where
  serverSpan : Option ServerSpanData := none
  request : Option RequestSpan := none
  response : Option ResponseSpan := none
  children : List String := []
  spanId : Option String := none
  parentSpanId : Option String := none
  isServerSpan : Bool := false
deriving DecidableEq, Repr

/-- `SpanTree = Record<string, SpanNode>`: an insertion-ordered map. -/
abbrev SpanTree := List (String × SpanNode)

/-- Lookup in an insertion-ordered string-keyed map (JS `obj[k]`). -/
def alGet {α : Type} : List (String × α) → String → Option α
  | [], _ => none
  | (k, v) :: t, k' => if k = k' then some v else alGet t k'

/-- Assignment `obj[k] = v`: overwrite in place, else append (JS objects
keep the original insertion position of an overwritten key). -/
def alSet {α : Type} : List (String × α) → String → α → List (String × α)
  | [], k, v => [(k, v)]
  | (k0, v0) :: t, k, v => if k0 = k then (k0, v) :: t else (k0, v0) :: alSet t k v

/-- Update the value at `k` when present (mutation of the object stored
there); a missing key leaves the map unchanged. -/
def alModify {α : Type} : List (String × α) → String → (α → α) → List (String × α)
  | [], _, _ => []
  | (k0, v0) :: t, k, f => if k0 = k then (k0, f v0) :: t else (k0, v0) :: alModify t k f

/-- `Map.delete` on the pending buffer. -/
def alErase {α : Type} : List (String × α) → String → List (String × α)
  | [], _ => []
  | (k0, v0) :: t, k => if k0 = k then alErase t k else (k0, v0) :: alErase t k

/-- The key list, in iteration order (`Object.keys`). -/
def alKeys {α : Type} (l : List (String × α)) : List String := l.map Prod.fst

@[simp] theorem alGet_nil {α : Type} (k : String) : alGet ([] : List (String × α)) k = none := rfl

@[simp] theorem alGet_cons {α : Type} (k0 : String) (v0 : α) (t : List (String × α)) (k : String) :
    alGet ((k0, v0) :: t) k = if k0 = k then some v0 else alGet t k := rfl

theorem alGet_alSet {α : Type} (l : List (String × α)) (k k' : String) (v : α) :
    alGet (alSet l k v) k' = if k = k' then some v else alGet l k' := by
  induction l with
  | nil => by_cases h : k = k' <;> simp [alSet, alGet, h]
  | cons p t ih =>
    obtain ⟨k0, v0⟩ := p
    by_cases h0 : k0 = k
    · subst h0
      by_cases h : k0 = k' <;> simp [alSet, alGet, h]
    · simp only [alSet, if_neg h0, alGet_cons, ih]
      by_cases h : k = k'
      · subst h; simp [if_neg h0]
      · simp [h]

theorem alGet_alModify {α : Type} (l : List (String × α)) (k k' : String) (f : α → α) :
    alGet (alModify l k f) k' =
      if k = k' then (alGet l k).map f else alGet l k' := by
  induction l with
  | nil => by_cases h : k = k' <;> simp [alModify, alGet, h]
  | cons p t ih =>
    obtain ⟨k0, v0⟩ := p
    by_cases h0 : k0 = k
    · subst h0
      by_cases h : k0 = k' <;> simp [alModify, alGet, h]
    · simp only [alModify, if_neg h0, alGet_cons, ih]
      by_cases h : k = k'
      · subst h; simp [if_neg h0]
      · simp [h]

theorem alGet_alErase {α : Type} (l : List (String × α)) (k k' : String) :
    alGet (alErase l k) k' = if k = k' then none else alGet l k' := by
  induction l with
  | nil => by_cases h : k = k' <;> simp [alErase, alGet, h]
  | cons p t ih =>
    obtain ⟨k0, v0⟩ := p
    by_cases h0 : k0 = k
    · subst h0
      by_cases h : k0 = k'
      · subst h; simp [alErase, ih]
      · simp [alErase, alGet, h, ih]
    · simp only [alErase, if_neg h0, alGet_cons, ih]
      by_cases h : k = k'
      · subst h; simp [if_neg h0]
      · simp [h]

@[simp] theorem alKeys_alSet {α : Type} (l : List (String × α)) (k : String) (v : α) :
    alKeys (alSet l k v) = if (alGet l k).isSome then alKeys l else alKeys l ++ [k] := by
  induction l with
  | nil => simp [alSet, alKeys, alGet]
  | cons p t ih =>
    obtain ⟨k0, v0⟩ := p
    by_cases h0 : k0 = k
    · simp [alSet, alKeys, alGet, h0]
    · by_cases h : (alGet t k).isSome <;>
        simp [alSet, alKeys, alGet, h0, h, alKeys] at ih ⊢ <;> simp [ih]

@[simp] theorem alKeys_alModify {α : Type} (l : List (String × α)) (k : String) (f : α → α) :
    alKeys (alModify l k f) = alKeys l := by
  induction l with
  | nil => simp [alModify]
  | cons p t ih =>
    obtain ⟨k0, v0⟩ := p
    by_cases h0 : k0 = k
    · simp [alModify, alKeys, h0]
    · simp only [alModify, if_neg h0, alKeys] at ih ⊢
      simp [ih]

/-- JavaScript truthiness of an optional string (`undefined` and `""` are
falsy): the guard `if (s)` keeps only a non-empty string. -/
def truthy : Option String → Option String
  | none => none
  | some s => if s = "" then none else some s

@[simp] theorem truthy_none : truthy none = none := rfl

theorem truthy_some {s : String} (h : s ≠ "") : truthy (some s) = some s := by
  simp [truthy, h]

/-- The engine state: the span tree together with the module-level
`pendingEndEvents` buffer of `spans.ts`, made explicit. -/
structure EngineState where
  tree : SpanTree
  pending : List (String × Span)
deriving DecidableEq, Repr

/-- `parentNode.children.push(node)` on the node stored at a key. -/
def pushChild (ck : String) (n : SpanNode) : SpanNode :=
  { n with children := n.children ++ [ck] }

/-- `children.some(child => child.spanId === sid)` for a mandatory string
`sid`; children are dereferenced through the map. -/
def anyChildSpanIdEq (t : SpanTree) (cs : List String) (sid : String) : Bool :=
  cs.any fun ck =>
    match alGet t ck with
    | some c => c.spanId = some sid
    | none => false

/-- `children.some(child => child.request?.id === id)`. -/
def anyChildRequestIdEq (t : SpanTree) (cs : List String) (id : String) : Bool :=
  cs.any fun ck =>
    match alGet t ck with
    | some c => c.request.map RequestSpan.id = some id
    | none => false

/-- `children.find(pred)` returning the key of the first child whose
dereferenced node satisfies the predicate. -/
def findChild (t : SpanTree) (cs : List String) (p : SpanNode → Bool) : Option String :=
  cs.find? fun ck =>
    match alGet t ck with
    | some c => p c
    | none => false

/-- The parent-linking step shared by span-start and span-end
(`spans.ts` lines 74-84 and 120-130): if the event's `parentSpanId` is
truthy and names an existing server-span node, push the child key unless
some child already has `spanId === sid`. -/
def attachChildBySpanId (t : SpanTree) (parentSpanId : Option String) (ck sid : String) :
    SpanTree :=
  match truthy parentSpanId with
  | some pid =>
    match alGet t pid with
    | some parent =>
      if parent.isServerSpan ∧ ¬ anyChildSpanIdEq t parent.children sid then
        alModify t pid (pushChild ck)
      else t
    | none => t
  | none => t

/-- One iteration of the orphan sweep of the span-start handler
(`spans.ts` lines 86-96): attach an existing node whose `parentSpanId`
names the just-started span. -/
def sweepStep (id : String) (t : SpanTree) (nodeId : String) : SpanTree :=
  if nodeId = id then t
  else
    match alGet t nodeId, alGet t id with
    | some node, some cur =>
      if node.parentSpanId = some id ∧ node.isServerSpan = true ∧
          ¬ anyChildSpanIdEq t cur.children nodeId then
        alModify t id (pushChild nodeId)
      else t
    | _, _ => t

/-- The whole orphan sweep: `for (const [nodeId, node] of
Object.entries(spanTree))`, in iteration order. -/
def sweepOrphans (t : SpanTree) (id : String) : SpanTree :=
  (alKeys t).foldl (sweepStep id) t

/-- The fresh node created on first reference by span-start. -/
def freshStartNode (id : String) (pS : Option String) : SpanNode :=
  { children := [], isServerSpan := true, spanId := some id, parentSpanId := pS }

/-- The `span-start` case of `mapServerEventToSpanTree`
(`spans.ts` lines 44-99). -/
def applySpanStart (data : Span) (st : EngineState) : EngineState :=
  match truthy data.spanId with
  | none => st
  | some id =>
    let pS := data.parentSpan.map ParentSpanRef.spanId
    let base := (alGet st.tree id).getD (freshStartNode id pS)
    let node1 : SpanNode :=
      { base with
        serverSpan := some { start := some data, «end» := none, isActive := true }
        isServerSpan := true, spanId := some id, parentSpanId := pS }
    match alGet st.pending id with
    | some e =>
      let node2 := { node1 with
        serverSpan := some { start := some data, «end» := some e, isActive := false } }
      let t1 := alSet st.tree id node2
      let t2 := attachChildBySpanId t1 pS id id
      ⟨sweepOrphans t2 id, alErase st.pending id⟩
    | none =>
      let t1 := alSet st.tree id node1
      let t2 := attachChildBySpanId t1 pS id id
      ⟨sweepOrphans t2 id, st.pending⟩

/-- The `span-end` case of `mapServerEventToSpanTree`
(`spans.ts` lines 101-137). -/
def applySpanEnd (data : Span) (st : EngineState) : EngineState :=
  match truthy data.spanId with
  | none => st
  | some id =>
    let pS := data.parentSpan.map ParentSpanRef.spanId
    match alGet st.tree id with
    | some existingNode =>
      let node1 : SpanNode :=
        match existingNode.serverSpan with
        | some ss =>
          { existingNode with serverSpan := some { ss with «end» := some data, isActive := false } }
        | none =>
          { existingNode with
            serverSpan := some { start := none, «end» := some data, isActive := false }
            isServerSpan := true, spanId := some id, parentSpanId := pS }
      let t1 := alSet st.tree id node1
      ⟨attachChildBySpanId t1 pS id id, st.pending⟩
    | none => ⟨st.tree, alSet st.pending id data⟩

/-- The fresh node created on first reference by request/response. -/
def freshHttpNode (dataSpanId pS : Option String) : SpanNode :=
  { children := [], isServerSpan := false, spanId := dataSpanId, parentSpanId := pS }

/-- The parent-linking step of the request handler (`spans.ts` lines
155-166): push the request node unless a child already has
`request?.id === id`. -/
def attachChildByRequestId (t : SpanTree) (pS : Option String) (id : String) : SpanTree :=
  match truthy pS with
  | some pid =>
    match alGet t pid with
    | some parent =>
      if parent.isServerSpan ∧ ¬ anyChildRequestIdEq t parent.children id then
        alModify t pid (pushChild id)
      else t
    | none => t
  | none => t

/-- The `request` case of `mapServerEventToSpanTree`
(`spans.ts` lines 139-167). -/
def applyRequest (data : RequestSpan) (st : EngineState) : EngineState :=
  let id := data.id
  let pS := data.spanId
  let base := (alGet st.tree id).getD (freshHttpNode data.spanId pS)
  let node1 := { base with request := some data, parentSpanId := pS }
  let t1 := alSet st.tree id node1
  ⟨attachChildByRequestId t1 pS id, st.pending⟩

/-- The three-tier reconciliation of the response handler (`spans.ts`
lines 183-219) against the parent's children; `nodeSpanId` is
`node.spanId` of the response's own node. -/
def responseReconcile (t : SpanTree) (pS : Option String) (id : String)
    (data : ResponseSpan) (nodeSpanId : Option String) : SpanTree :=
  match truthy pS with
  | some pid =>
    match alGet t pid with
    | some parent =>
      if parent.isServerSpan then
        let existingChild :=
          findChild t parent.children fun c => c.request.map RequestSpan.id = some id
        let availableChild :=
          match existingChild with
          | some _ => none
          | none =>
            findChild t parent.children fun c =>
              c.spanId = nodeSpanId ∧ c.request.isSome ∧ c.response = none
        match existingChild.orElse fun _ => availableChild with
        | some ck => alModify t ck fun c => { c with response := some data }
        | none => alModify t pid (pushChild id)
      else t
    | none => t
  | none => t

/-- The `response` case of `mapServerEventToSpanTree`
(`spans.ts` lines 168-221). -/
def applyResponse (data : ResponseSpan) (st : EngineState) : EngineState :=
  let id := data.id
  let pS := data.spanId
  let base := (alGet st.tree id).getD (freshHttpNode data.spanId pS)
  let node1 := { base with response := some data, parentSpanId := pS }
  let t1 := alSet st.tree id node1
  ⟨responseReconcile t1 pS id data node1.spanId, st.pending⟩

/-- The four broadcast event kinds (`src/packages/types/events.ts`,
`BroadcastedServerEvents`). -/
inductive BEvent where
  | spanStart (data : Span)
  | spanEnd (data : Span)
  | request (data : RequestSpan)
  | response (data : ResponseSpan)
deriving DecidableEq, Repr

/-- Dispatch of `mapServerEventToSpanTree` on a broadcast event. -/
def applyB : BEvent → EngineState → EngineState
  | .spanStart d, st => applySpanStart d st
  | .spanEnd d, st => applySpanEnd d st
  | .request d, st => applyRequest d st
  | .response d, st => applyResponse d st

/-- `ServerEvent` (`src/packages/types/events.ts`): a broadcast event or a
`catch-up` batch of broadcast events. -/
inductive ServerEvent where
  | base (e : BEvent)
  | catchUp (events : List BEvent)
deriving DecidableEq, Repr

/-- `mapServerEventToSpanTree` (`spans.ts` lines 37-225) over the explicit
engine state; the `catch-up` case folds the batch left-to-right. -/
def mapServerEventToSpanTree : ServerEvent → EngineState → EngineState
  | .base e, st => applyB e st
  | .catchUp es, st => es.foldl (fun s e => applyB e s) st

/-! ## Waterfall chart layout
(`src/packages/web-extension/entrypoints/devtools-panel/components/waterfall-chart.tsx`).
Timestamps are embedded as integer milliseconds, so the `Math.floor` on
`minTime` and `Math.ceil` on `maxTime` are the identity; the percentage
arithmetic is exact over `ℚ`. -/

/-- `TimingData` of `waterfall-chart.tsx`. -/
structure TimingData where
  id : String
  start : Int
  «end» : Int
  label : Option String := none
  method : Option String := none
  url : Option String := none
  status : Option Int := none
deriving DecidableEq, Repr

/-- `PositionedTiming`: the input datum together with `row`, `left`,
`width` (spread `{...item, row, left, width}`). -/
structure PositionedTiming where
  item : TimingData
  row : Nat
  left : ℚ
  width : ℚ
deriving DecidableEq, Repr

/-- `Math.floor(Math.min(...data.map(d => d.start)))`; on integer input
the floor is the identity.  The `[]` default is never consulted: the
component returns early on empty data. -/
def minTimeOf : List TimingData → Int
  | [] => 0
  | d :: ds => ds.foldl (fun a x => min a x.start) d.start

/-- `Math.ceil(Math.max(...data.map(d => d.end)))`. -/
def maxTimeOf : List TimingData → Int
  | [] => 0
  | d :: ds => ds.foldl (fun a x => max a x.«end») d.«end»

/-- `Math.ceil(n / 1000) * 1000` on an integer `n`, in executable integer
arithmetic; `jsCeil1000_eq` checks it against the real ceiling. -/
def jsCeil1000 (n : Int) : Int := -(-n / 1000) * 1000

theorem jsCeil1000_eq (n : Int) : jsCeil1000 n = ⌈(n : ℚ) / 1000⌉ * 1000 := by
  have h1 : (⌈(n : ℚ) / 1000⌉ : Int) = -⌊-((n : ℚ) / 1000)⌋ := by
    rw [Int.floor_neg]; ring
  have h2 : ⌊-((n : ℚ) / 1000)⌋ = -n / 1000 := by
    have hc : -((n : ℚ) / 1000) = ((-n : Int) : ℚ) / ((1000 : ℕ) : ℚ) := by push_cast; ring
    rw [hc, Rat.floor_intCast_div_natCast]
    norm_num
  rw [jsCeil1000, h1, h2]

/-- `timeRange = Math.ceil((maxTime - minTime) / 1000) * 1000`. -/
def timeRangeOf (data : List TimingData) : Int :=
  jsCeil1000 (maxTimeOf data - minTimeOf data)

/-- The overlap test of the row scanner:
`item.start < occupant.end && item.end > occupant.start`. -/
def occOverlaps (s e : Int) (occ : Int × Int) : Bool :=
  decide (s < occ.2 ∧ e > occ.1)

/-- The `while (true)` row scan: the index of the first row whose
occupancy list has no overlap (rows past the end are empty and accept). -/
def findRow (occ : List (List (Int × Int))) (s e : Int) : Nat :=
  match occ with
  | [] => 0
  | r :: rest => if r.any (occOverlaps s e) then findRow rest s e + 1 else 0

/-- `rowOccupancy[row].push({start, end})`, materialising any rows the
scan initialised on its way. -/
def occInsert (occ : List (List (Int × Int))) (r : Nat) (iv : Int × Int) :
    List (List (Int × Int)) :=
  match occ, r with
  | [], 0 => [[iv]]
  | [], Nat.succ r' => [] :: occInsert [] r' iv
  | o :: os, 0 => (o ++ [iv]) :: os
  | o :: os, Nat.succ r' => o :: occInsert os r' iv

/-- One step of the layout fold: place `item`, record its occupancy and
emit its positioned entry. -/
def packStep (minTime timeRange : Int) (acc : List (List (Int × Int)) × List PositionedTiming)
    (item : TimingData) : List (List (Int × Int)) × List PositionedTiming :=
  let duration := item.«end» - item.start
  let left : ℚ := ((item.start - minTime : Int) : ℚ) / (timeRange : ℚ) * 100
  let width : ℚ := max (((duration : Int) : ℚ) / (timeRange : ℚ) * 100) 1
  let r := findRow acc.1 item.start item.«end»
  (occInsert acc.1 r (item.start, item.«end»),
    acc.2 ++ [{ item := item, row := r, left := left, width := width }])

/-- `positionedData` of `WaterfallChart` (`waterfall-chart.tsx` lines
99-155): sort by start ascending (stable, as JS `Array.prototype.sort`),
fall back to one row per item when the rounded time range is zero, and
otherwise run the greedy first-fit row packer. -/
def positionedData (data : List TimingData) : List PositionedTiming :=
  if data = [] then []
  else
    let sortedData := data.insertionSort fun a b => a.start ≤ b.start
    if timeRangeOf data = 0 then
      (sortedData.enum.map fun p => { item := p.2, row := p.1, left := 10, width := 80 })
    else
      (sortedData.foldl (packStep (minTimeOf data) (timeRangeOf data)) ([], [])).2

/-- `totalRows = positionedData.length > 0 ? Math.max(...rows, 0) + 1 : 0`. -/
def totalRows (data : List TimingData) : Nat :=
  match positionedData data with
  | [] => 0
  | ps => (ps.foldl (fun m p => max m p.row) 0) + 1

/-- The number of intervals of `data` whose `[start, end)` range contains
the instant `t` — the overlap depth at `t`. -/
def depthAt (data : List TimingData) (t : Int) : Nat :=
  (data.filter fun d => decide (d.start ≤ t ∧ t < d.«end»)).length

/-! ## Tree filters (`spans.ts` lines 228-251, `src/unnamed/part_019`).

`filterEmptySpans` mutates the nodes it retains: `node.children =
filterChildren(node.children)` rebinds the children array of the original
object.  In the heap embedding the filter therefore returns both the list
of retained top-level keys and the updated heap.  The recursion over
children is structural on object references in JS; we bound it by a fuel
parameter (any fuel at least the nesting depth of the tree computes the
JS result; on a cyclic heap JS itself diverges). -/

/-- The retention predicate: `child.children.length > 0 || child.request
|| child.response`. -/
def nodeKeep (n : SpanNode) : Bool :=
  !n.children.isEmpty || n.request.isSome || n.response.isSome

/-- `filterChildren` of `filterEmptySpans`: keep the qualifying children,
then recursively prune each kept child in place.  Returns the kept keys
and the mutated heap. -/
def filterChildrenH : Nat → SpanTree → List String → List String × SpanTree
  | 0, t, _ => ([], t)
  | Nat.succ fuel, t, keys =>
    let kept := keys.filter fun ck =>
      match alGet t ck with
      | some c => nodeKeep c
      | none => false
    let t' := kept.foldl (fun tAcc ck =>
      match alGet tAcc ck with
      | some c =>
        let r := filterChildrenH fuel tAcc c.children
        alModify r.2 ck fun c2 => { c2 with children := r.1 }
      | none => tAcc) t
    (kept, t')

/-- `filterEmptySpans` (`spans.ts` lines 228-251): the retained top-level
keys, in iteration order, together with the heap as mutated by the
in-place pruning of retained nodes' children. -/
def filterEmptySpans (fuel : Nat) (t : SpanTree) : List String × SpanTree :=
  (alKeys t).foldl (fun acc id =>
    match alGet acc.2 id with
    | some node =>
      if nodeKeep node then
        let r := filterChildrenH fuel acc.2 node.children
        (acc.1 ++ [id], alModify r.2 id fun n => { n with children := r.1 })
      else acc
    | none => acc) ([], t)

/-- `filterSpansWithoutChildren` (`src/unnamed/part_019` lines 227-249) is
character-for-character the same function as `filterEmptySpans`. -/
def filterSpansWithoutChildren (fuel : Nat) (t : SpanTree) : List String × SpanTree :=
  filterEmptySpans fuel t

/-! ## URL filter (`filterSpansByUrl`, `src/unnamed/part_019` lines 404-542). -/

/-- `String.prototype.toLowerCase`, embedded per character (ASCII). -/
def strLower (s : String) : String := ⟨s.data.map Char.toLower⟩

/-- `String.prototype.trim`: strip leading and trailing whitespace. -/
def strTrim (s : String) : String :=
  ⟨((s.data.dropWhile Char.isWhitespace).reverse.dropWhile Char.isWhitespace).reverse⟩

/-- Contiguous-sublist test on characters, for `String.prototype.includes`. -/
def charsContain (needle : List Char) : List Char → Bool
  | [] => needle.isEmpty
  | c :: cs => needle.isPrefixOf (c :: cs) || charsContain needle cs

/-- `hay.includes(needle)`. -/
def strIncludes (hay needle : String) : Bool := charsContain needle.data hay.data

/-- The per-node half of `nodeMatchesFilter`:
`node.serverSpan?.start?.id.toLowerCase().includes(fl) ||
node.request?.url?.toLowerCase().includes(fl)`. -/
def matchesOwn (fl : String) (n : SpanNode) : Bool :=
  (match n.serverSpan.bind ServerSpanData.start with
   | some s => strIncludes (strLower s.id) fl
   | none => false) ||
  (match n.request with
   | some r => strIncludes (strLower r.url) fl
   | none => false)

/-- `nodeMatchesFilter` (`part_019` lines 429-439): the node itself or one
of its direct children matches. -/
def nodeMatchesFilter (t : SpanTree) (fl : String) (n : SpanNode) : Bool :=
  matchesOwn fl n ||
  n.children.any fun ck =>
    match alGet t ck with
    | some c => matchesOwn fl c
    | none => false

/-- Insertion-ordered set `Set<string>.add`. -/
def setAdd (s : List String) (x : String) : List String :=
  if x ∈ s then s else s ++ [x]

/-- `getAncestorIds` (`part_019` lines 442-453): walk the `parentSpanId`
chain accumulating ancestors.  A falsy (`undefined` or empty)
`parentSpanId`, or a missing node, stops the walk.  Fuel bounds the walk
(set to the map size by the caller; on a cyclic chain JS diverges). -/
def getAncestorIds (t : SpanTree) : Nat → String → List String → List String
  | 0, _, acc => acc
  | Nat.succ fuel, nodeId, acc =>
    match alGet t nodeId with
    | none => acc
    | some node =>
      match truthy node.parentSpanId with
      | none => acc
      | some p => getAncestorIds t fuel p (setAdd acc p)

/-- `buildSpanIdToNodeIdMap` (`part_019` lines 456-464): later entries
overwrite earlier ones for a repeated `spanId`. -/
def spanIdToNodeIdMap (t : SpanTree) : List (String × String) :=
  t.foldl (fun m p =>
    match p.2.spanId with
    | some sid => alSet m sid p.1
    | none => m) []

/-- One pass of the step-3 connectivity loop (`part_019` lines 497-519):
scan all entries in order, adding any node with an already-included child
(resolved through the spanId-to-nodeId map); returns the grown set and
the `changed` flag. -/
def closurePass (t : SpanTree) (m : List (String × String)) (s : List String) :
    List String × Bool :=
  t.foldl (fun acc p =>
    if p.1 ∈ acc.1 then acc
    else
      let hasIncludedChild := p.2.children.any fun ck =>
        match (alGet t ck).bind SpanNode.spanId with
        | some csid =>
          match truthy (some csid) with
          | some csid' =>
            match alGet m csid' with
            | some childNodeId =>
              -- `childNodeId && nodesToInclude.has(childNodeId)`: "" is falsy
              if childNodeId = "" then false else decide (childNodeId ∈ acc.1)
            | none => false
          | none => false
        | none => false
      if hasIncludedChild then (acc.1 ++ [p.1], true) else acc)
    (s, false)

/-- The `while (changed)` loop around `closurePass`; each productive pass
grows the included set by at least one key, so `t.length + 1` passes
always reach the fixed point. -/
def closureLoop (t : SpanTree) (m : List (String × String)) :
    Nat → List String → List String
  | 0, s => s
  | Nat.succ fuel, s =>
    let r := closurePass t m s
    if r.2 then closureLoop t m fuel r.1 else r.1

/-- `filterSpansByUrl` (`part_019` lines 404-542). -/
def filterSpansByUrl (t : SpanTree) (urlFilter : String) : SpanTree :=
  if urlFilter = "" then t
  else
    let fl := strTrim (strLower urlFilter)
    if fl = "" then t
    else
      let matching := t.filter fun p => nodeMatchesFilter t fl p.2
      if matching.isEmpty then []
      else
        let included := matching.foldl (fun s p =>
          let s1 := setAdd s p.1
          (getAncestorIds t t.length p.1 []).foldl setAdd s1) []
        let m := spanIdToNodeIdMap t
        let included := closureLoop t m (t.length + 1) included
        included.foldl (fun acc nodeId =>
          match alGet t nodeId with
          | none => acc
          | some originalNode =>
            let cs := originalNode.children.foldl (fun cs ck =>
              match (alGet t ck).bind SpanNode.spanId with
              | some csid =>
                match truthy (some csid) with
                | some csid' =>
                  match alGet m csid' with
                  | some childNodeId =>
                    if childNodeId ≠ "" ∧ childNodeId ∈ included then cs ++ [childNodeId]
                    else cs
                  | none => cs
                | none => cs
              | none => cs) []
            alSet acc nodeId { originalNode with children := cs }) []

/-! ## Shared verification machinery. -/

/-- All fields of a node except its `children` array. -/
def SpanNode.core (n : SpanNode) :
    Option ServerSpanData × Option RequestSpan × Option ResponseSpan ×
      Option String × Option String × Bool :=
  (n.serverSpan, n.request, n.response, n.spanId, n.parentSpanId, n.isServerSpan)

/-- Two heaps with the same keys whose nodes agree on everything except
possibly their `children` arrays. -/
def CoreAgree (t t' : SpanTree) : Prop :=
  alKeys t = alKeys t' ∧
    ∀ k, (alGet t k).map SpanNode.core = (alGet t' k).map SpanNode.core

theorem CoreAgree.refl (t : SpanTree) : CoreAgree t t := ⟨rfl, fun _ => rfl⟩

theorem CoreAgree.trans {t₁ t₂ t₃ : SpanTree} (h₁ : CoreAgree t₁ t₂) (h₂ : CoreAgree t₂ t₃) :
    CoreAgree t₁ t₃ :=
  ⟨h₁.1.trans h₂.1, fun k => (h₁.2 k).trans (h₂.2 k)⟩

theorem coreAgree_alModify_childrenOnly (t : SpanTree) (k : String)
    (f : SpanNode → SpanNode) (hf : ∀ n, (f n).core = n.core) :
    CoreAgree t (alModify t k f) := by
  refine ⟨(alKeys_alModify t k f).symm, fun k' => ?_⟩
  rw [alGet_alModify]
  by_cases h : k = k'
  · subst h
    cases hg : alGet t k with
    | none => simp
    | some n => simp [hf n]
  · simp [h]

theorem core_pushChild (ck : String) (n : SpanNode) : (pushChild ck n).core = n.core := rfl

theorem coreAgree_attach (t : SpanTree) (pS : Option String) (ck sid : String) :
    CoreAgree t (attachChildBySpanId t pS ck sid) := by
  unfold attachChildBySpanId
  cases htr : truthy pS with
  | none => exact CoreAgree.refl t
  | some pid =>
    cases hg : alGet t pid with
    | none => simp only [hg]; exact CoreAgree.refl t
    | some parent =>
      simp only [hg]
      by_cases h : parent.isServerSpan = true ∧ ¬ anyChildSpanIdEq t parent.children sid = true
      · simpa [h] using coreAgree_alModify_childrenOnly t pid (pushChild ck) (core_pushChild ck)
      · simp only [if_neg h]
        exact CoreAgree.refl t

theorem coreAgree_sweepStep (id : String) (t : SpanTree) (nodeId : String) :
    CoreAgree t (sweepStep id t nodeId) := by
  unfold sweepStep
  by_cases h : nodeId = id
  · simp only [h, if_pos rfl]
    exact CoreAgree.refl t
  · simp only [if_neg h]
    cases hn : alGet t nodeId with
    | none => simp only [hn]; exact CoreAgree.refl t
    | some node =>
      cases hc : alGet t id with
      | none => simp only [hn, hc]; exact CoreAgree.refl t
      | some cur =>
        simp only [hn, hc]
        by_cases hg : node.parentSpanId = some id ∧ node.isServerSpan = true ∧
            ¬ anyChildSpanIdEq t cur.children nodeId = true
        · simpa [hg] using
            coreAgree_alModify_childrenOnly t id (pushChild nodeId) (core_pushChild nodeId)
        · simp only [if_neg hg]
          exact CoreAgree.refl t

theorem coreAgree_sweepOrphans (t : SpanTree) (id : String) :
    CoreAgree t (sweepOrphans t id) := by
  unfold sweepOrphans
  generalize alKeys t = ks
  induction ks generalizing t with
  | nil => exact CoreAgree.refl t
  | cons k ks ih =>
    exact (coreAgree_sweepStep id t k).trans (ih (sweepStep id t k))

theorem CoreAgree.get_none {t t' : SpanTree} (h : CoreAgree t t') {k : String}
    (hg : alGet t k = none) : alGet t' k = none := by
  have h2 := h.2 k
  rw [hg] at h2
  cases hg' : alGet t' k with
  | none => rfl
  | some n' => rw [hg'] at h2; simp at h2

theorem CoreAgree.get_some {t t' : SpanTree} (h : CoreAgree t t') {k : String} {n : SpanNode}
    (hg : alGet t k = some n) : ∃ n', alGet t' k = some n' ∧ n'.core = n.core := by
  have h2 := h.2 k
  rw [hg] at h2
  cases hg' : alGet t' k with
  | none => rw [hg'] at h2; simp at h2
  | some n' =>
    rw [hg'] at h2
    exact ⟨n', rfl, by simpa using h2.symm⟩

theorem CoreAgree.bind_spanId {t t' : SpanTree} (h : CoreAgree t t') (k : String) :
    (alGet t' k).bind SpanNode.spanId = (alGet t k).bind SpanNode.spanId := by
  cases hg : alGet t k with
  | none => rw [h.get_none hg]
  | some n =>
    obtain ⟨n', hg', hcore⟩ := h.get_some hg
    rw [hg']
    have : n'.spanId = n.spanId := congrArg (fun c => c.2.2.2.1) hcore
    simp [this]

theorem anyChildSpanIdEq_eq (t : SpanTree) (cs : List String) (sid : String) :
    anyChildSpanIdEq t cs sid =
      cs.any fun ck => decide ((alGet t ck).bind SpanNode.spanId = some sid) := by
  unfold anyChildSpanIdEq
  induction cs with
  | nil => rfl
  | cons c cs ih =>
    simp only [List.any_cons, ih]
    cases alGet t c <;> simp

/-- `t'` extends every node of `t`: same or appended-to children. -/
def ChildrenExtend (t t' : SpanTree) : Prop :=
  ∀ k n, alGet t k = some n →
    ∃ n' l, alGet t' k = some n' ∧ n'.children = n.children ++ l

theorem childrenExtend_refl (t : SpanTree) : ChildrenExtend t t :=
  fun _ n hg => ⟨n, [], hg, by simp⟩

theorem childrenExtend_trans {t₁ t₂ t₃ : SpanTree} (h₁ : ChildrenExtend t₁ t₂)
    (h₂ : ChildrenExtend t₂ t₃) : ChildrenExtend t₁ t₃ := by
  intro k n hg
  obtain ⟨n', l', hg', he'⟩ := h₁ k n hg
  obtain ⟨n'', l'', hg'', he''⟩ := h₂ k n' hg'
  exact ⟨n'', l' ++ l'', hg'', by rw [he'', he', List.append_assoc]⟩

theorem childrenExtend_alModify_pushChild (t : SpanTree) (k ck : String) :
    ChildrenExtend t (alModify t k (pushChild ck)) := by
  intro k' n hg
  by_cases h : k = k'
  · subst h
    exact ⟨pushChild ck n, [ck], by rw [alGet_alModify, if_pos rfl, hg]; rfl, rfl⟩
  · exact ⟨n, [], by rw [alGet_alModify, if_neg h]; exact hg, by simp⟩

theorem childrenExtend_attach (t : SpanTree) (pS : Option String) (ck sid : String) :
    ChildrenExtend t (attachChildBySpanId t pS ck sid) := by
  unfold attachChildBySpanId
  cases truthy pS with
  | none => exact childrenExtend_refl t
  | some pid =>
    cases hg : alGet t pid with
    | none => simp only [hg]; exact childrenExtend_refl t
    | some parent =>
      simp only [hg]
      by_cases h : parent.isServerSpan = true ∧ ¬ anyChildSpanIdEq t parent.children sid = true
      · simpa [h] using childrenExtend_alModify_pushChild t pid ck
      · simp only [if_neg h]; exact childrenExtend_refl t

theorem childrenExtend_sweepStep (id : String) (t : SpanTree) (nodeId : String) :
    ChildrenExtend t (sweepStep id t nodeId) := by
  unfold sweepStep
  by_cases h : nodeId = id
  · simp only [h, if_pos rfl]; exact childrenExtend_refl t
  · simp only [if_neg h]
    cases hn : alGet t nodeId with
    | none => simp only [hn]; exact childrenExtend_refl t
    | some node =>
      cases hc : alGet t id with
      | none => simp only [hn, hc]; exact childrenExtend_refl t
      | some cur =>
        simp only [hn, hc]
        by_cases hg : node.parentSpanId = some id ∧ node.isServerSpan = true ∧
            ¬ anyChildSpanIdEq t cur.children nodeId = true
        · simpa [hg] using childrenExtend_alModify_pushChild t id nodeId
        · simp only [if_neg hg]; exact childrenExtend_refl t

theorem childrenExtend_sweepOrphans (t : SpanTree) (id : String) :
    ChildrenExtend t (sweepOrphans t id) := by
  unfold sweepOrphans
  generalize alKeys t = ks
  induction ks generalizing t with
  | nil => exact childrenExtend_refl t
  | cons k ks ih =>
    exact childrenExtend_trans (childrenExtend_sweepStep id t k) (ih (sweepStep id t k))

/-- A true `child.spanId === sid` test survives any evolution that
preserves node cores and only appends to children lists. -/
theorem anyChildSpanIdEq_mono {t t' : SpanTree} (hca : CoreAgree t t')
    (cs l : List String) (sid : String)
    (h : anyChildSpanIdEq t cs sid = true) :
    anyChildSpanIdEq t' (cs ++ l) sid = true := by
  rw [anyChildSpanIdEq_eq] at h ⊢
  rw [List.any_append]
  refine (Bool.or_eq_true _ _).mpr (Or.inl ?_)
  obtain ⟨ck, hmem, hck⟩ := List.any_eq_true.mp h
  exact List.any_eq_true.mpr ⟨ck, hmem, by rw [hca.bind_spanId]; exact hck⟩

theorem attach_eq_of_truthy_none {t : SpanTree} {pS : Option String} {ck sid : String}
    (h : truthy pS = none) : attachChildBySpanId t pS ck sid = t := by
  unfold attachChildBySpanId
  simp only [h]

theorem attach_eq_of_no_parent {t : SpanTree} {pS : Option String} {pid ck sid : String}
    (h : truthy pS = some pid) (hg : alGet t pid = none) :
    attachChildBySpanId t pS ck sid = t := by
  unfold attachChildBySpanId
  simp only [h, hg]

theorem attach_eq_of_not_server {t : SpanTree} {pS : Option String} {pid ck sid : String}
    {parent : SpanNode} (h : truthy pS = some pid) (hg : alGet t pid = some parent)
    (hsrv : ¬ parent.isServerSpan = true) :
    attachChildBySpanId t pS ck sid = t := by
  unfold attachChildBySpanId
  simp only [h, hg]
  rw [if_neg (by simp [hsrv])]

theorem attach_eq_of_blocked {t : SpanTree} {pS : Option String} {pid ck sid : String}
    {parent : SpanNode} (h : truthy pS = some pid) (hg : alGet t pid = some parent)
    (hany : anyChildSpanIdEq t parent.children sid = true) :
    attachChildBySpanId t pS ck sid = t := by
  unfold attachChildBySpanId
  simp only [h, hg]
  rw [if_neg (by simp [hany])]

theorem attach_eq_of_push {t : SpanTree} {pS : Option String} {pid ck sid : String}
    {parent : SpanNode} (h : truthy pS = some pid) (hg : alGet t pid = some parent)
    (hsrv : parent.isServerSpan = true)
    (hany : ¬ anyChildSpanIdEq t parent.children sid = true) :
    attachChildBySpanId t pS ck sid = alModify t pid (pushChild ck) := by
  unfold attachChildBySpanId
  simp only [h, hg]
  rw [if_pos ⟨hsrv, hany⟩]

/-- Once the parent link is established (or was blocked), re-running the
parent-attach step after any core-preserving, children-appending
evolution is the identity. -/
theorem attach_noop {t1 t' : SpanTree} (pS : Option String) (id : String)
    (hca : CoreAgree (attachChildBySpanId t1 pS id id) t')
    (hce : ChildrenExtend (attachChildBySpanId t1 pS id id) t')
    (hid : ∃ n, alGet t1 id = some n ∧ n.spanId = some id) :
    attachChildBySpanId t' pS id id = t' := by
  obtain ⟨n1, hn1, hsp1⟩ := hid
  cases htr : truthy pS with
  | none => exact attach_eq_of_truthy_none htr
  | some pid =>
    cases hg : alGet t1 pid with
    | none =>
      rw [attach_eq_of_no_parent htr hg] at hca
      exact attach_eq_of_no_parent htr (hca.get_none hg)
    | some parent =>
      by_cases hsrv : parent.isServerSpan = true
      · by_cases hany : anyChildSpanIdEq t1 parent.children id = true
        · -- blocked at the first attach: still blocked now
          rw [attach_eq_of_blocked htr hg hany] at hca hce
          obtain ⟨parent', hg', hcore⟩ := hca.get_some hg
          obtain ⟨parent'', l, hg'', hch⟩ := hce pid parent hg
          rw [hg''] at hg'
          cases hg'
          refine attach_eq_of_blocked htr hg'' ?_
          rw [hch]
          exact anyChildSpanIdEq_mono hca parent.children l id hany
        · -- pushed at the first attach: the pushed child now blocks
          rw [attach_eq_of_push htr hg hsrv hany] at hca hce
          have hget2 : alGet (alModify t1 pid (pushChild id)) pid =
              some (pushChild id parent) := by
            rw [alGet_alModify, if_pos rfl, hg]; rfl
          obtain ⟨parent', hg', hcore⟩ := hca.get_some hget2
          obtain ⟨parent'', l, hg'', hch⟩ := hce pid (pushChild id parent) hget2
          rw [hg''] at hg'
          cases hg'
          have hany2 : anyChildSpanIdEq (alModify t1 pid (pushChild id))
              (pushChild id parent).children id = true := by
            rw [anyChildSpanIdEq_eq]
            refine List.any_eq_true.mpr ⟨id, by simp [pushChild], ?_⟩
            rw [alGet_alModify]
            by_cases hpid : pid = id
            · subst hpid
              rw [if_pos rfl, hn1]
              simp [pushChild, hsp1]
            · rw [if_neg hpid, hn1]
              simp [hsp1]
          refine attach_eq_of_blocked htr hg'' ?_
          rw [hch]
          exact anyChildSpanIdEq_mono hca (pushChild id parent).children l id hany2
      · -- parent is not a server span: both attaches are the identity
        rw [attach_eq_of_not_server htr hg hsrv] at hca
        obtain ⟨parent', hg', hcore⟩ := hca.get_some hg
        refine attach_eq_of_not_server htr hg' ?_
        have : parent'.isServerSpan = parent.isServerSpan :=
          congrArg (fun c => c.2.2.2.2.2) hcore
        rw [this]; exact hsrv

theorem alModify_alSet_self {α : Type} (l : List (String × α)) (k : String) (v : α)
    (g : α → α) : alModify (alSet l k v) k g = alSet l k (g v) := by
  induction l with
  | nil => simp [alSet, alModify]
  | cons p t ih =>
    obtain ⟨k0, v0⟩ := p
    by_cases h0 : k0 = k <;> simp [alSet, alModify, h0, ih]

theorem alSet_of_get_some {α : Type} {l : List (String × α)} {k : String} {v : α}
    (hg : alGet l k = some v) (g : α → α) : alSet l k (g v) = alModify l k g := by
  induction l with
  | nil => simp [alGet] at hg
  | cons p t ih =>
    obtain ⟨k0, v0⟩ := p
    by_cases h0 : k0 = k
    · subst h0
      rw [alGet_cons, if_pos rfl] at hg
      cases hg
      simp [alSet, alModify]
    · rw [alGet_cons, if_neg h0] at hg
      simp [alSet, alModify, h0, ih hg]

theorem alModify_alModify_self {α : Type} (l : List (String × α)) (k : String)
    (f g : α → α) : alModify (alModify l k f) k g = alModify l k (g ∘ f) := by
  induction l with
  | nil => simp [alModify]
  | cons p t ih =>
    obtain ⟨k0, v0⟩ := p
    by_cases h0 : k0 = k <;> simp [alModify, h0, ih]

theorem alModify_comm_of_ne {α : Type} (l : List (String × α)) {k k' : String}
    (h : k ≠ k') (f g : α → α) :
    alModify (alModify l k f) k' g = alModify (alModify l k' g) k f := by
  induction l with
  | nil => simp [alModify]
  | cons p t ih =>
    obtain ⟨k0, v0⟩ := p
    by_cases h0 : k0 = k
    · have h1 : ¬ k0 = k' := fun hc => h (h0 ▸ hc)
      simp [alModify, h0, h1, if_neg (h0 ▸ h : ¬ k = k')]
    · by_cases h1 : k0 = k'
      · have h2 : ¬ k' = k := fun hc => h hc.symm
        simp [alModify, h0, h1, if_neg h2]
      · simp [alModify, h0, h1, ih]

theorem alErase_alSet_self {α : Type} (l : List (String × α)) (k : String) (v : α) :
    alErase (alSet l k v) k = alErase l k := by
  induction l with
  | nil => simp [alSet, alErase]
  | cons p t ih =>
    obtain ⟨k0, v0⟩ := p
    by_cases h0 : k0 = k <;> simp [alSet, alErase, h0, ih]

theorem alErase_of_get_none {α : Type} {l : List (String × α)} {k : String}
    (hg : alGet l k = none) : alErase l k = l := by
  induction l with
  | nil => simp [alErase]
  | cons p t ih =>
    obtain ⟨k0, v0⟩ := p
    by_cases h0 : k0 = k
    · subst h0; rw [alGet_cons, if_pos rfl] at hg; cases hg
    · rw [alGet_cons, if_neg h0] at hg
      simp [alErase, h0, ih hg]

/-- Overwrite only the `serverSpan` field of a node. -/
def setSS (ss : Option ServerSpanData) (n : SpanNode) : SpanNode :=
  { n with serverSpan := ss }

theorem anyChildSpanIdEq_alModify_setSS (t : SpanTree) (k : String)
    (ss : Option ServerSpanData) (cs : List String) (sid : String) :
    anyChildSpanIdEq (alModify t k (setSS ss)) cs sid = anyChildSpanIdEq t cs sid := by
  unfold anyChildSpanIdEq
  induction cs with
  | nil => rfl
  | cons c cs ih =>
    simp only [List.any_cons, ih]
    congr 1
    rw [alGet_alModify]
    by_cases h : k = c
    · subst h
      cases alGet t k <;> simp [setSS]
    · rw [if_neg h]

/-- `sweepStep` case equations. -/
theorem sweepStep_eq_self {id : String} (t : SpanTree) {nodeId : String} (h : nodeId = id) :
    sweepStep id t nodeId = t := by
  unfold sweepStep
  rw [if_pos h]

theorem sweepStep_eq_no_node {id : String} {t : SpanTree} {nodeId : String}
    (h : ¬ nodeId = id) (hn : alGet t nodeId = none) : sweepStep id t nodeId = t := by
  unfold sweepStep
  rw [if_neg h]
  simp only [hn]

theorem sweepStep_eq_no_cur {id : String} {t : SpanTree} {nodeId : String} {node : SpanNode}
    (h : ¬ nodeId = id) (hn : alGet t nodeId = some node) (hc : alGet t id = none) :
    sweepStep id t nodeId = t := by
  unfold sweepStep
  rw [if_neg h]
  simp only [hn, hc]

theorem sweepStep_eq_no_guard {id : String} {t : SpanTree} {nodeId : String}
    {node cur : SpanNode} (h : ¬ nodeId = id) (hn : alGet t nodeId = some node)
    (hc : alGet t id = some cur)
    (hg : ¬ (node.parentSpanId = some id ∧ node.isServerSpan = true ∧
      ¬ anyChildSpanIdEq t cur.children nodeId = true)) :
    sweepStep id t nodeId = t := by
  unfold sweepStep
  rw [if_neg h]
  simp only [hn, hc]
  rw [if_neg hg]

theorem sweepStep_eq_push {id : String} {t : SpanTree} {nodeId : String}
    {node cur : SpanNode} (h : ¬ nodeId = id) (hn : alGet t nodeId = some node)
    (hc : alGet t id = some cur)
    (hg : node.parentSpanId = some id ∧ node.isServerSpan = true ∧
      ¬ anyChildSpanIdEq t cur.children nodeId = true) :
    sweepStep id t nodeId = alModify t id (pushChild nodeId) := by
  unfold sweepStep
  rw [if_neg h]
  simp only [hn, hc]
  rw [if_pos hg]

theorem attach_alModify_setSS (t : SpanTree) (k : String) (ss : Option ServerSpanData)
    (pS : Option String) (ck sid : String) :
    attachChildBySpanId (alModify t k (setSS ss)) pS ck sid =
      alModify (attachChildBySpanId t pS ck sid) k (setSS ss) := by
  cases htr : truthy pS with
  | none => rw [attach_eq_of_truthy_none htr, attach_eq_of_truthy_none htr]
  | some pid =>
    cases hg : alGet t pid with
    | none =>
      have hg' : alGet (alModify t k (setSS ss)) pid = none := by
        rw [alGet_alModify]
        by_cases h : k = pid
        · subst h; rw [if_pos rfl, hg]; rfl
        · rw [if_neg h]; exact hg
      rw [attach_eq_of_no_parent htr hg', attach_eq_of_no_parent htr hg]
    | some parent =>
      by_cases hk : k = pid
      · subst hk
        have hg' : alGet (alModify t k (setSS ss)) k = some (setSS ss parent) := by
          rw [alGet_alModify, if_pos rfl, hg]; rfl
        by_cases hsrv : parent.isServerSpan = true
        · by_cases hany : anyChildSpanIdEq t parent.children sid = true
          · rw [attach_eq_of_blocked htr hg'
                (by rw [show (setSS ss parent).children = parent.children from rfl,
                  anyChildSpanIdEq_alModify_setSS]; exact hany),
              attach_eq_of_blocked htr hg hany]
          · rw [attach_eq_of_push htr hg' (by exact hsrv)
                (by rw [show (setSS ss parent).children = parent.children from rfl,
                  anyChildSpanIdEq_alModify_setSS]; exact hany),
              attach_eq_of_push htr hg hsrv hany,
              alModify_alModify_self, alModify_alModify_self]
            rfl
        · rw [attach_eq_of_not_server htr hg' (by exact hsrv),
            attach_eq_of_not_server htr hg hsrv]
      · have hg' : alGet (alModify t k (setSS ss)) pid = some parent := by
          rw [alGet_alModify, if_neg hk]; exact hg
        by_cases hsrv : parent.isServerSpan = true
        · by_cases hany : anyChildSpanIdEq t parent.children sid = true
          · rw [attach_eq_of_blocked htr hg'
                (by rw [anyChildSpanIdEq_alModify_setSS]; exact hany),
              attach_eq_of_blocked htr hg hany]
          · rw [attach_eq_of_push htr hg' hsrv
                (by rw [anyChildSpanIdEq_alModify_setSS]; exact hany),
              attach_eq_of_push htr hg hsrv hany,
              alModify_comm_of_ne _ hk]
        · rw [attach_eq_of_not_server htr hg' hsrv,
            attach_eq_of_not_server htr hg hsrv]

theorem sweepStep_alModify_setSS (id : String) (t : SpanTree) (k : String)
    (ss : Option ServerSpanData) (nodeId : String) :
    sweepStep id (alModify t k (setSS ss)) nodeId =
      alModify (sweepStep id t nodeId) k (setSS ss) := by
  by_cases h : nodeId = id
  · rw [sweepStep_eq_self _ h, sweepStep_eq_self _ h]
  · cases hn : alGet t nodeId with
    | none =>
      have hn' : alGet (alModify t k (setSS ss)) nodeId = none := by
        rw [alGet_alModify]
        by_cases hkn : k = nodeId
        · subst hkn; rw [if_pos rfl, hn]; rfl
        · rw [if_neg hkn]; exact hn
      rw [sweepStep_eq_no_node h hn', sweepStep_eq_no_node h hn]
    | some node =>
      have hn' : alGet (alModify t k (setSS ss)) nodeId =
          some (if k = nodeId then setSS ss node else node) := by
        rw [alGet_alModify]
        by_cases hkn : k = nodeId
        · rw [if_pos hkn, if_pos hkn]; subst hkn; rw [hn]; rfl
        · rw [if_neg hkn, if_neg hkn]; exact hn
      cases hc : alGet t id with
      | none =>
        have hc' : alGet (alModify t k (setSS ss)) id = none := by
          rw [alGet_alModify]
          by_cases hki : k = id
          · subst hki; rw [if_pos rfl, hc]; rfl
          · rw [if_neg hki]; exact hc
        rw [sweepStep_eq_no_cur h hn' hc', sweepStep_eq_no_cur h hn hc]
      | some cur =>
        have hc' : alGet (alModify t k (setSS ss)) id =
            some (if k = id then setSS ss cur else cur) := by
          rw [alGet_alModify]
          by_cases hki : k = id
          · rw [if_pos hki, if_pos hki]; subst hki; rw [hc]; rfl
          · rw [if_neg hki, if_neg hki]; exact hc
        have hfields : (if k = nodeId then setSS ss node else node).parentSpanId =
            node.parentSpanId ∧
            (if k = nodeId then setSS ss node else node).isServerSpan = node.isServerSpan ∧
            (if k = id then setSS ss cur else cur).children = cur.children := by
          refine ⟨?_, ?_, ?_⟩ <;> split <;> rfl
        by_cases hgd : node.parentSpanId = some id ∧ node.isServerSpan = true ∧
            ¬ anyChildSpanIdEq t cur.children nodeId = true
        · rw [sweepStep_eq_push h hn' hc'
              (by rw [hfields.1, hfields.2.1, hfields.2.2, anyChildSpanIdEq_alModify_setSS]
                  exact hgd),
            sweepStep_eq_push h hn hc hgd]
          by_cases hki : k = id
          · subst hki; rw [alModify_alModify_self, alModify_alModify_self]; rfl
          · rw [alModify_comm_of_ne _ hki]
        · rw [sweepStep_eq_no_guard h hn' hc'
              (by rw [hfields.1, hfields.2.1, hfields.2.2, anyChildSpanIdEq_alModify_setSS]
                  exact hgd),
            sweepStep_eq_no_guard h hn hc hgd]

theorem sweepOrphans_alModify_setSS (t : SpanTree) (k : String)
    (ss : Option ServerSpanData) (id : String) :
    sweepOrphans (alModify t k (setSS ss)) id =
      alModify (sweepOrphans t id) k (setSS ss) := by
  unfold sweepOrphans
  rw [alKeys_alModify]
  generalize alKeys t = ks
  induction ks generalizing t with
  | nil => rfl
  | cons k0 ks ih =>
    simp only [List.foldl_cons]
    rw [sweepStep_alModify_setSS, ih]

/-- Witness payload: a span record with the given `spanId` and parent. -/
def mkSpan (sid : String) (p : Option String) : Span :=
  { id := sid, start := 0, «end» := none, spanId := some sid, traceId := some "t",
    parentSpan := p.map fun q => ⟨q, "t"⟩ }

/-- Witness payload: a request record with the given correlation id,
containing span and URL. -/
def mkRequest (rid : String) (sid : Option String) (u : String) : RequestSpan :=
  { id := rid, start := 0, «end» := none, spanId := sid, traceId := some "t",
    parentSpan := none, method := "GET", url := u, headers := [], body := none }

/-- Witness payload: a response record with the given correlation id and
containing span. -/
def mkResponse (rid : String) (sid : Option String) : ResponseSpan :=
  { id := rid, start := 0, «end» := none, spanId := sid, traceId := some "t",
    parentSpan := none, status := 200, statusText := "OK", headers := [], body := none }

theorem CoreAgree.serverSpan_eq {t t' : SpanTree} (h : CoreAgree t t') (k : String) :
    (alGet t' k).map SpanNode.serverSpan = (alGet t k).map SpanNode.serverSpan := by
  have h2 := h.2 k
  cases hg : alGet t k with
  | none =>
    rw [hg] at h2
    cases hg' : alGet t' k with
    | none => rfl
    | some n' => rw [hg'] at h2; simp at h2
  | some n =>
    rw [hg] at h2
    cases hg' : alGet t' k with
    | none => rw [hg'] at h2; simp at h2
    | some n' =>
      rw [hg'] at h2
      have hcore : n.core = n'.core := by simpa using h2
      have hss : n.serverSpan = n'.serverSpan := congrArg Prod.fst hcore
      simp [hss]

/-- Buffering equation of the span-end handler: unknown span, truthy id. -/
theorem applySpanEnd_eq_buffer {data : Span} {st : EngineState} {id : String}
    (hid : data.spanId = some id) (hne : id ≠ "") (hmiss : alGet st.tree id = none) :
    applySpanEnd data st = ⟨st.tree, alSet st.pending id data⟩ := by
  simp [applySpanEnd, hid, truthy_some hne, hmiss]

/-- Update equation of the span-end handler: known span with a
`serverSpan` already present. -/
theorem applySpanEnd_eq_update {data : Span} {st : EngineState} {id : String}
    {n : SpanNode} {ss : ServerSpanData}
    (hid : data.spanId = some id) (hne : id ≠ "") (hget : alGet st.tree id = some n)
    (hss : n.serverSpan = some ss) :
    applySpanEnd data st =
      ⟨attachChildBySpanId
          (alSet st.tree id
            { n with serverSpan := some { ss with «end» := some data, isActive := false } })
          (data.parentSpan.map ParentSpanRef.spanId) id id,
        st.pending⟩ := by
  unfold applySpanEnd
  simp only [hid, truthy_some hne, hget, hss]

/-- Equation of the span-start handler when a buffered end exists. -/
theorem applySpanStart_eq_pending {data : Span} {st : EngineState} {id : String} {e : Span}
    (hid : data.spanId = some id) (hne : id ≠ "") (hp : alGet st.pending id = some e) :
    applySpanStart data st =
      ⟨sweepOrphans (attachChildBySpanId
          (alSet st.tree id
            { (alGet st.tree id).getD
                (freshStartNode id (data.parentSpan.map ParentSpanRef.spanId)) with
              serverSpan := some { start := some data, «end» := some e, isActive := false }
              isServerSpan := true, spanId := some id,
              parentSpanId := data.parentSpan.map ParentSpanRef.spanId })
          (data.parentSpan.map ParentSpanRef.spanId) id id) id,
        alErase st.pending id⟩ := by
  unfold applySpanStart
  simp only [hid, truthy_some hne, hp]

/-- Equation of the span-start handler with no buffered end. -/
theorem applySpanStart_eq_nopending {data : Span} {st : EngineState} {id : String}
    (hid : data.spanId = some id) (hne : id ≠ "") (hp : alGet st.pending id = none) :
    applySpanStart data st =
      ⟨sweepOrphans (attachChildBySpanId
          (alSet st.tree id
            { (alGet st.tree id).getD
                (freshStartNode id (data.parentSpan.map ParentSpanRef.spanId)) with
              serverSpan := some { start := some data, «end» := none, isActive := true }
              isServerSpan := true, spanId := some id,
              parentSpanId := data.parentSpan.map ParentSpanRef.spanId })
          (data.parentSpan.map ParentSpanRef.spanId) id id) id,
        st.pending⟩ := by
  unfold applySpanStart
  simp only [hid, truthy_some hne, hp]

/-- The node a span-start leaves at its own key always carries
`start = data`; the end and activity depend on the pending buffer. -/
theorem applySpanStart_serverSpan (data : Span) (st : EngineState) (id : String)
    (hid : data.spanId = some id) (hne : id ≠ "") :
    (alGet (applySpanStart data st).tree id).map SpanNode.serverSpan =
      some (some (match alGet st.pending id with
        | some e => { start := some data, «end» := some e, isActive := false }
        | none => { start := some data, «end» := none, isActive := true })) := by
  unfold applySpanStart
  simp only [hid, truthy_some hne]
  cases hp : alGet st.pending id with
  | some e =>
    simp only [hp]
    rw [((coreAgree_attach _ _ id id).trans (coreAgree_sweepOrphans _ id)).serverSpan_eq id]
    simp [alGet_alSet]
  | none =>
    simp only [hp]
    rw [((coreAgree_attach _ _ id id).trans (coreAgree_sweepOrphans _ id)).serverSpan_eq id]
    simp [alGet_alSet]

/-- The all-default node value (`{}`), used for auxiliary tree content in
witnesses. -/
def emptyNode : SpanNode := {}

/-- No-op equations for falsy span ids. -/
theorem applySpanStart_eq_falsy {data : Span} {st : EngineState}
    (h : truthy data.spanId = none) : applySpanStart data st = st := by
  unfold applySpanStart
  rw [h]

theorem applySpanEnd_eq_falsy {data : Span} {st : EngineState}
    (h : truthy data.spanId = none) : applySpanEnd data st = st := by
  unfold applySpanEnd
  rw [h]

/-- Equation of the span-end handler creating a bare `serverSpan` on a
node that existed without one. -/
theorem applySpanEnd_eq_create {data : Span} {st : EngineState} {id : String} {n : SpanNode}
    (hid : data.spanId = some id) (hne : id ≠ "") (hget : alGet st.tree id = some n)
    (hss : n.serverSpan = none) :
    applySpanEnd data st =
      ⟨attachChildBySpanId
          (alSet st.tree id
            { n with
              serverSpan := some { start := none, «end» := some data, isActive := false },
              isServerSpan := true, spanId := some id,
              parentSpanId := data.parentSpan.map ParentSpanRef.spanId })
          (data.parentSpan.map ParentSpanRef.spanId) id id,
        st.pending⟩ := by
  unfold applySpanEnd
  simp only [hid, truthy_some hne, hget, hss]

/-- Inversion of a truthy result. -/
theorem truthy_eq_some {o : Option String} {s : String} (h : truthy o = some s) :
    o = some s ∧ s ≠ "" := by
  cases o with
  | none => cases h
  | some x =>
    by_cases hx : x = ""
    · rw [show truthy (some x) = none by simp [truthy, hx]] at h
      cases h
    · rw [truthy_some hx] at h
      cases h
      exact ⟨rfl, hx⟩

/-- Core agreement for the request handler's attach step. -/
theorem coreAgree_attachReq (t : SpanTree) (pS : Option String) (id : String) :
    CoreAgree t (attachChildByRequestId t pS id) := by
  unfold attachChildByRequestId
  cases htr : truthy pS with
  | none => exact CoreAgree.refl t
  | some pid =>
    cases hg : alGet t pid with
    | none => simp only [hg]; exact CoreAgree.refl t
    | some parent =>
      simp only [hg]
      by_cases h : parent.isServerSpan = true ∧ ¬ anyChildRequestIdEq t parent.children id = true
      · simpa [h] using coreAgree_alModify_childrenOnly t pid (pushChild id) (core_pushChild id)
      · simp only [if_neg h]
        exact CoreAgree.refl t

/-- Monotonicity of the claim-C2 fields: `request`, `response`,
`serverSpan.start` and `spanId` are only ever populated, never cleared. -/
def FieldMono (n n' : SpanNode) : Prop :=
  (n.request.isSome = true → n'.request.isSome = true) ∧
  (n.response.isSome = true → n'.response.isSome = true) ∧
  ((n.serverSpan.bind ServerSpanData.start).isSome = true →
    (n'.serverSpan.bind ServerSpanData.start).isSome = true) ∧
  (n.spanId.isSome = true → n'.spanId.isSome = true)

theorem FieldMono.rfl (n : SpanNode) : FieldMono n n :=
  ⟨id, id, id, id⟩

theorem fieldMono_trans {a b c : SpanNode} (h₁ : FieldMono a b) (h₂ : FieldMono b c) :
    FieldMono a c :=
  ⟨h₂.1 ∘ h₁.1, h₂.2.1 ∘ h₁.2.1, h₂.2.2.1 ∘ h₁.2.2.1, h₂.2.2.2 ∘ h₁.2.2.2⟩

theorem FieldMono.of_core_eq {a b : SpanNode} (h : b.core = a.core) : FieldMono a b := by
  have h1 : b.serverSpan = a.serverSpan := congrArg Prod.fst h
  have h2 : b.request = a.request := congrArg (fun c => c.2.1) h
  have h3 : b.response = a.response := congrArg (fun c => c.2.2.1) h
  have h4 : b.spanId = a.spanId := congrArg (fun c => c.2.2.2.1) h
  exact ⟨by rw [h2]; exact id, by rw [h3]; exact id, by rw [h1]; exact id, by rw [h4]; exact id⟩

/-- Pointwise field monotonicity between two heaps, with no key lost. -/
def TreeMono (t t' : SpanTree) : Prop :=
  ∀ k n, alGet t k = some n → ∃ n', alGet t' k = some n' ∧ FieldMono n n'

theorem treeMono_refl (t : SpanTree) : TreeMono t t :=
  fun _ n hg => ⟨n, hg, FieldMono.rfl n⟩

theorem treeMono_trans {t₁ t₂ t₃ : SpanTree} (h₁ : TreeMono t₁ t₂) (h₂ : TreeMono t₂ t₃) :
    TreeMono t₁ t₃ := by
  intro k n hg
  obtain ⟨n', hg', hm'⟩ := h₁ k n hg
  obtain ⟨n'', hg'', hm''⟩ := h₂ k n' hg'
  exact ⟨n'', hg'', fieldMono_trans hm' hm''⟩

theorem treeMono_of_coreAgree {t t' : SpanTree} (h : CoreAgree t t') : TreeMono t t' := by
  intro k n hg
  obtain ⟨n', hg', hcore⟩ := h.get_some hg
  exact ⟨n', hg', FieldMono.of_core_eq hcore⟩

theorem treeMono_alSet {t : SpanTree} {k : String} {v : SpanNode}
    (h : ∀ n, alGet t k = some n → FieldMono n v) : TreeMono t (alSet t k v) := by
  intro k' n hg
  by_cases hk : k = k'
  · subst hk
    exact ⟨v, by rw [alGet_alSet, if_pos rfl], h n hg⟩
  · exact ⟨n, by rw [alGet_alSet, if_neg hk]; exact hg, FieldMono.rfl n⟩

theorem treeMono_alModify {t : SpanTree} {k : String} {f : SpanNode → SpanNode}
    (h : ∀ n, FieldMono n (f n)) : TreeMono t (alModify t k f) := by
  intro k' n hg
  by_cases hk : k = k'
  · subst hk
    exact ⟨f n, by rw [alGet_alModify, if_pos rfl, hg]; rfl, h n⟩
  · exact ⟨n, by rw [alGet_alModify, if_neg hk]; exact hg, FieldMono.rfl n⟩

theorem treeMono_applySpanStart (data : Span) (st : EngineState) :
    TreeMono st.tree (applySpanStart data st).tree := by
  cases htr : truthy data.spanId with
  | none => rw [applySpanStart_eq_falsy htr]; exact treeMono_refl st.tree
  | some id =>
    obtain ⟨hid, hne⟩ := truthy_eq_some htr
    cases hp : alGet st.pending id with
    | some e =>
      rw [applySpanStart_eq_pending hid hne hp]
      refine treeMono_trans (treeMono_alSet fun n hn => ?_) (treeMono_of_coreAgree
        ((coreAgree_attach _ _ id id).trans (coreAgree_sweepOrphans _ id)))
      rw [hn]
      exact ⟨fun h => h, fun h => h, fun _ => rfl, fun _ => rfl⟩
    | none =>
      rw [applySpanStart_eq_nopending hid hne hp]
      refine treeMono_trans (treeMono_alSet fun n hn => ?_) (treeMono_of_coreAgree
        ((coreAgree_attach _ _ id id).trans (coreAgree_sweepOrphans _ id)))
      rw [hn]
      exact ⟨fun h => h, fun h => h, fun _ => rfl, fun _ => rfl⟩

theorem treeMono_applySpanEnd (data : Span) (st : EngineState) :
    TreeMono st.tree (applySpanEnd data st).tree := by
  cases htr : truthy data.spanId with
  | none => rw [applySpanEnd_eq_falsy htr]; exact treeMono_refl st.tree
  | some id =>
    obtain ⟨hid, hne⟩ := truthy_eq_some htr
    cases hget : alGet st.tree id with
    | none =>
      rw [applySpanEnd_eq_buffer hid hne hget]
      exact treeMono_refl st.tree
    | some n =>
      cases hss : n.serverSpan with
      | some ss =>
        rw [applySpanEnd_eq_update hid hne hget hss]
        refine treeMono_trans (treeMono_alSet fun m hm => ?_)
          (treeMono_of_coreAgree (coreAgree_attach _ _ id id))
        rw [hget] at hm
        cases hm
        refine ⟨fun h => h, fun h => h, fun h => ?_, fun h => h⟩
        rw [hss] at h
        exact h
      | none =>
        rw [applySpanEnd_eq_create hid hne hget hss]
        refine treeMono_trans (treeMono_alSet fun m hm => ?_)
          (treeMono_of_coreAgree (coreAgree_attach _ _ id id))
        rw [hget] at hm
        cases hm
        refine ⟨fun h => h, fun h => h, fun h => ?_, fun _ => rfl⟩
        rw [hss] at h
        cases h

theorem treeMono_applyRequest (data : RequestSpan) (st : EngineState) :
    TreeMono st.tree (applyRequest data st).tree := by
  show TreeMono st.tree (attachChildByRequestId _ _ _)
  refine treeMono_trans (treeMono_alSet fun n hn => ?_)
    (treeMono_of_coreAgree (coreAgree_attachReq _ _ _))
  rw [hn]
  exact ⟨fun _ => rfl, fun h => h, fun h => h, fun h => h⟩

theorem treeMono_responseReconcile (t : SpanTree) (pS : Option String) (id : String)
    (data : ResponseSpan) (nsid : Option String) :
    TreeMono t (responseReconcile t pS id data nsid) := by
  unfold responseReconcile
  cases htr : truthy pS with
  | none => exact treeMono_refl t
  | some pid =>
    cases hg : alGet t pid with
    | none => simp only [hg]; exact treeMono_refl t
    | some parent =>
      simp only [hg]
      by_cases hsrv : parent.isServerSpan = true
      · rw [if_pos hsrv]
        split
        · exact treeMono_alModify fun n => ⟨fun h => h, fun _ => rfl, fun h => h, fun h => h⟩
        · exact treeMono_alModify fun n => FieldMono.of_core_eq (core_pushChild id n)
      · rw [if_neg hsrv]
        exact treeMono_refl t

theorem treeMono_applyResponse (data : ResponseSpan) (st : EngineState) :
    TreeMono st.tree (applyResponse data st).tree := by
  show TreeMono st.tree (responseReconcile _ _ _ _ _)
  refine treeMono_trans (treeMono_alSet fun n hn => ?_) (treeMono_responseReconcile _ _ _ _ _)
  rw [hn]
  exact ⟨fun h => h, fun _ => rfl, fun h => h, fun h => h⟩

theorem treeMono_applyB (e : BEvent) (st : EngineState) :
    TreeMono st.tree (applyB e st).tree := by
  cases e with
  | spanStart d => exact treeMono_applySpanStart d st
  | spanEnd d => exact treeMono_applySpanEnd d st
  | request d => exact treeMono_applyRequest d st
  | response d => exact treeMono_applyResponse d st

theorem treeMono_mapServerEvent (e : ServerEvent) (st : EngineState) :
    TreeMono st.tree (mapServerEventToSpanTree e st).tree := by
  cases e with
  | base b => exact treeMono_applyB b st
  | catchUp es =>
    show TreeMono st.tree (es.foldl (fun s e => applyB e s) st).tree
    induction es generalizing st with
    | nil => exact treeMono_refl st.tree
    | cons b bs ih =>
      exact treeMono_trans (treeMono_applyB b st) (ih (applyB b st))

theorem alSet_get_self {α : Type} {l : List (String × α)} {k : String} {v : α}
    (hg : alGet l k = some v) : alSet l k v = l := by
  induction l with
  | nil => cases hg
  | cons p t ih =>
    obtain ⟨k0, v0⟩ := p
    by_cases h0 : k0 = k
    · subst h0
      rw [alGet_cons, if_pos rfl] at hg
      cases hg
      simp [alSet]
    · rw [alGet_cons, if_neg h0] at hg
      simp [alSet, h0, ih hg]

theorem alModify_of_fix {α : Type} {l : List (String × α)} {k : String} {f : α → α}
    (h : ∀ v, alGet l k = some v → f v = v) : alModify l k f = l := by
  induction l with
  | nil => rfl
  | cons p t ih =>
    obtain ⟨k0, v0⟩ := p
    by_cases h0 : k0 = k
    · subst h0
      have := h v0 (by rw [alGet_cons, if_pos rfl])
      simp [alModify, this]
    · simp only [alModify, if_neg h0, List.cons.injEq, true_and]
      exact ih fun v hv => h v (by rw [alGet_cons, if_neg h0]; exact hv)

theorem mem_alKeys_of_get_some {α : Type} {l : List (String × α)} {k : String} {v : α}
    (hg : alGet l k = some v) : k ∈ alKeys l := by
  induction l with
  | nil => cases hg
  | cons p t ih =>
    obtain ⟨k0, v0⟩ := p
    by_cases h0 : k0 = k
    · subst h0; exact List.mem_cons_self _ _
    · rw [alGet_cons, if_neg h0] at hg
      exact List.mem_cons_of_mem _ (ih hg)

theorem CoreAgree.symm {t t' : SpanTree} (h : CoreAgree t t') : CoreAgree t' t :=
  ⟨h.1.symm, fun k => (h.2 k).symm⟩

theorem CoreAgree.bind_request {t t' : SpanTree} (h : CoreAgree t t') (k : String) :
    (alGet t' k).bind SpanNode.request = (alGet t k).bind SpanNode.request := by
  cases hg : alGet t k with
  | none => rw [h.get_none hg]
  | some n =>
    obtain ⟨n', hg', hcore⟩ := h.get_some hg
    rw [hg']
    have : n'.request = n.request := congrArg (fun c => c.2.1) hcore
    simp [this]

theorem anyChildRequestIdEq_eq (t : SpanTree) (cs : List String) (id : String) :
    anyChildRequestIdEq t cs id =
      cs.any fun ck =>
        decide (((alGet t ck).bind SpanNode.request).map RequestSpan.id = some id) := by
  unfold anyChildRequestIdEq
  induction cs with
  | nil => rfl
  | cons c cs ih =>
    simp only [List.any_cons, ih]
    cases alGet t c <;> simp

theorem anyChildRequestIdEq_mono {t t' : SpanTree} (hca : CoreAgree t t')
    (cs l : List String) (id : String)
    (h : anyChildRequestIdEq t cs id = true) :
    anyChildRequestIdEq t' (cs ++ l) id = true := by
  rw [anyChildRequestIdEq_eq] at h ⊢
  rw [List.any_append]
  refine (Bool.or_eq_true _ _).mpr (Or.inl ?_)
  obtain ⟨ck, hmem, hck⟩ := List.any_eq_true.mp h
  exact List.any_eq_true.mpr ⟨ck, hmem, by rw [hca.bind_request]; exact hck⟩

theorem attachReq_eq_of_truthy_none {t : SpanTree} {pS : Option String} {id : String}
    (h : truthy pS = none) : attachChildByRequestId t pS id = t := by
  unfold attachChildByRequestId
  simp only [h]

theorem attachReq_eq_of_no_parent {t : SpanTree} {pS : Option String} {pid id : String}
    (h : truthy pS = some pid) (hg : alGet t pid = none) :
    attachChildByRequestId t pS id = t := by
  unfold attachChildByRequestId
  simp only [h, hg]

theorem attachReq_eq_of_not_server {t : SpanTree} {pS : Option String} {pid id : String}
    {parent : SpanNode} (h : truthy pS = some pid) (hg : alGet t pid = some parent)
    (hsrv : ¬ parent.isServerSpan = true) :
    attachChildByRequestId t pS id = t := by
  unfold attachChildByRequestId
  simp only [h, hg]
  rw [if_neg (by simp [hsrv])]

theorem attachReq_eq_of_blocked {t : SpanTree} {pS : Option String} {pid id : String}
    {parent : SpanNode} (h : truthy pS = some pid) (hg : alGet t pid = some parent)
    (hany : anyChildRequestIdEq t parent.children id = true) :
    attachChildByRequestId t pS id = t := by
  unfold attachChildByRequestId
  simp only [h, hg]
  rw [if_neg (by simp [hany])]

theorem attachReq_eq_of_push {t : SpanTree} {pS : Option String} {pid id : String}
    {parent : SpanNode} (h : truthy pS = some pid) (hg : alGet t pid = some parent)
    (hsrv : parent.isServerSpan = true)
    (hany : ¬ anyChildRequestIdEq t parent.children id = true) :
    attachChildByRequestId t pS id = alModify t pid (pushChild id) := by
  unfold attachChildByRequestId
  simp only [h, hg]
  rw [if_pos ⟨hsrv, hany⟩]

/-- Re-running the request-attach after a core-preserving,
children-appending evolution is the identity. -/
theorem attachReq_noop {t1 t' : SpanTree} (pS : Option String) (id : String)
    (hca : CoreAgree (attachChildByRequestId t1 pS id) t')
    (hce : ChildrenExtend (attachChildByRequestId t1 pS id) t')
    (hid : ∃ n, alGet t1 id = some n ∧ n.request.map RequestSpan.id = some id) :
    attachChildByRequestId t' pS id = t' := by
  obtain ⟨n1, hn1, hrq1⟩ := hid
  cases htr : truthy pS with
  | none => exact attachReq_eq_of_truthy_none htr
  | some pid =>
    cases hg : alGet t1 pid with
    | none =>
      rw [attachReq_eq_of_no_parent htr hg] at hca
      exact attachReq_eq_of_no_parent htr (hca.get_none hg)
    | some parent =>
      by_cases hsrv : parent.isServerSpan = true
      · by_cases hany : anyChildRequestIdEq t1 parent.children id = true
        · rw [attachReq_eq_of_blocked htr hg hany] at hca hce
          obtain ⟨parent', hg', hcore⟩ := hca.get_some hg
          obtain ⟨parent'', l, hg'', hch⟩ := hce pid parent hg
          rw [hg''] at hg'
          cases hg'
          refine attachReq_eq_of_blocked htr hg'' ?_
          rw [hch]
          exact anyChildRequestIdEq_mono hca parent.children l id hany
        · rw [attachReq_eq_of_push htr hg hsrv hany] at hca hce
          have hget2 : alGet (alModify t1 pid (pushChild id)) pid =
              some (pushChild id parent) := by
            rw [alGet_alModify, if_pos rfl, hg]; rfl
          obtain ⟨parent', hg', hcore⟩ := hca.get_some hget2
          obtain ⟨parent'', l, hg'', hch⟩ := hce pid (pushChild id parent) hget2
          rw [hg''] at hg'
          cases hg'
          have hany2 : anyChildRequestIdEq (alModify t1 pid (pushChild id))
              (pushChild id parent).children id = true := by
            rw [anyChildRequestIdEq_eq]
            refine List.any_eq_true.mpr ⟨id, by simp [pushChild], ?_⟩
            rw [alGet_alModify]
            by_cases hpid : pid = id
            · subst hpid
              rw [if_pos rfl, hn1]
              simpa [pushChild] using hrq1
            · rw [if_neg hpid, hn1]
              simpa using hrq1
          refine attachReq_eq_of_blocked htr hg'' ?_
          rw [hch]
          exact anyChildRequestIdEq_mono hca (pushChild id parent).children l id hany2
      · rw [attachReq_eq_of_not_server htr hg hsrv] at hca
        obtain ⟨parent', hg', hcore⟩ := hca.get_some hg
        refine attachReq_eq_of_not_server htr hg' ?_
        have : parent'.isServerSpan = parent.isServerSpan :=
          congrArg (fun c => c.2.2.2.2.2) hcore
        rw [this]; exact hsrv

/-- Node equality from componentwise field equality. -/
theorem SpanNode.eq_of_fields {a b : SpanNode} (h1 : a.serverSpan = b.serverSpan)
    (h2 : a.request = b.request) (h3 : a.response = b.response)
    (h4 : a.children = b.children) (h5 : a.spanId = b.spanId)
    (h6 : a.parentSpanId = b.parentSpanId) (h7 : a.isServerSpan = b.isServerSpan) :
    a = b := by
  cases a
  cases b
  simp only at h1 h2 h3 h4 h5 h6 h7
  simp [h1, h2, h3, h4, h5, h6, h7]

/-- Well-formedness the engine maintains for nodes it creates: a
server-span node records its own map key as `spanId`, a node with a
`serverSpan` is marked `isServerSpan`, and a request-bearing node's
request id is its map key. -/
def WFNode (k : String) (n : SpanNode) : Prop :=
  (n.isServerSpan = true → n.spanId = some k) ∧
  (n.serverSpan.isSome = true → n.isServerSpan = true) ∧
  (n.request.map RequestSpan.id).getD k = k

/-- A well-formed tree: every entry (including shadowed duplicates)
satisfies `WFNode`. -/
def WFTree (t : SpanTree) : Prop := ∀ p ∈ t, WFNode p.1 p.2

theorem alGet_mem {α : Type} {l : List (String × α)} {k : String} {v : α}
    (hg : alGet l k = some v) : (k, v) ∈ l := by
  induction l with
  | nil => cases hg
  | cons p t ih =>
    obtain ⟨k0, v0⟩ := p
    by_cases h0 : k0 = k
    · subst h0
      rw [alGet_cons, if_pos rfl] at hg
      cases hg
      exact List.mem_cons_self _ _
    · rw [alGet_cons, if_neg h0] at hg
      exact List.mem_cons_of_mem _ (ih hg)

theorem WFTree.get {t : SpanTree} (h : WFTree t) {k : String} {n : SpanNode}
    (hg : alGet t k = some n) : WFNode k n :=
  h (k, n) (alGet_mem hg)

theorem WFNode.request_id {k : String} {n : SpanNode} (h : WFNode k n) {r : RequestSpan}
    (hr : n.request = some r) : r.id = k := by
  have := h.2.2
  rw [hr] at this
  simpa using this

/-- The server-spanId invariant needed by the orphan sweep. -/
def ServerSpanIdInv (t : SpanTree) : Prop :=
  ∀ k n, alGet t k = some n → n.isServerSpan = true → n.spanId = some k

theorem ServerSpanIdInv.of_wf {t : SpanTree} (h : WFTree t) : ServerSpanIdInv t :=
  fun _ _ hg hsrv => (h.get hg).1 hsrv

theorem serverSpanIdInv_of_coreAgree {t t' : SpanTree} (hca : CoreAgree t t')
    (h : ServerSpanIdInv t) : ServerSpanIdInv t' := by
  intro k n hg hsrv
  obtain ⟨n₀, hg₀, hcore⟩ := hca.symm.get_some hg
  have h1 : n₀.isServerSpan = n.isServerSpan := congrArg (fun c => c.2.2.2.2.2) hcore
  have h2 : n₀.spanId = n.spanId := congrArg (fun c => c.2.2.2.1) hcore
  rw [← h2]
  exact h k n₀ hg₀ (h1.trans hsrv)

theorem ServerSpanIdInv.alSet {t : SpanTree} {k : String} {v : SpanNode}
    (h : ServerSpanIdInv t) (hv : v.isServerSpan = true → v.spanId = some k) :
    ServerSpanIdInv (alSet t k v) := by
  intro k' n hg hsrv
  rw [alGet_alSet] at hg
  by_cases hk : k = k'
  · rw [if_pos hk] at hg
    cases hg
    rw [← hk]
    exact hv hsrv
  · rw [if_neg hk] at hg
    exact h k' n hg hsrv

/-- A tree on which the orphan sweep has nothing left to do. -/
def SweepDone (t : SpanTree) (id : String) : Prop :=
  ∀ nodeId node cur, nodeId ≠ id → alGet t nodeId = some node → alGet t id = some cur →
    node.parentSpanId = some id → node.isServerSpan = true →
    anyChildSpanIdEq t cur.children nodeId = true

theorem sweepOrphans_eq_of_done {t : SpanTree} {id : String} (h : SweepDone t id) :
    sweepOrphans t id = t := by
  unfold sweepOrphans
  generalize alKeys t = ks
  induction ks with
  | nil => rfl
  | cons k ks ih =>
    have hstep : sweepStep id t k = t := by
      by_cases hk : k = id
      · exact sweepStep_eq_self t hk
      · cases hn : alGet t k with
        | none => exact sweepStep_eq_no_node hk hn
        | some node =>
          cases hc : alGet t id with
          | none => exact sweepStep_eq_no_cur hk hn hc
          | some cur =>
            refine sweepStep_eq_no_guard hk hn hc fun hgd => ?_
            exact hgd.2.2 (h k node cur hk hn hc hgd.1 hgd.2.1)
    rw [List.foldl_cons, hstep, ih]

/-- The per-key fact the sweep establishes. -/
def SweepQ (id x : String) (s : SpanTree) : Prop :=
  ∀ node cur, x ≠ id → alGet s x = some node → alGet s id = some cur →
    node.parentSpanId = some id → node.isServerSpan = true →
    anyChildSpanIdEq s cur.children x = true

theorem sweepQ_mono {id x : String} {s : SpanTree} (y : String) (h : SweepQ id x s) :
    SweepQ id x (sweepStep id s y) := by
  intro node cur hx hnode hcur hpar hsrv
  have hca : CoreAgree s (sweepStep id s y) := coreAgree_sweepStep id s y
  have hce : ChildrenExtend s (sweepStep id s y) := childrenExtend_sweepStep id s y
  obtain ⟨node₀, hn₀, hcore₀⟩ := hca.symm.get_some hnode
  obtain ⟨cur₀, hc₀, hcorec⟩ := hca.symm.get_some hcur
  obtain ⟨cur₁, l, hc₁, hch⟩ := hce id cur₀ hc₀
  rw [hcur] at hc₁
  cases hc₁
  have hpar₀ : node₀.parentSpanId = some id :=
    (congrArg (fun c => c.2.2.2.2.1) hcore₀).trans hpar
  have hsrv₀ : node₀.isServerSpan = true :=
    (congrArg (fun c => c.2.2.2.2.2) hcore₀).trans hsrv
  have hany := h node₀ cur₀ hx hn₀ hc₀ hpar₀ hsrv₀
  rw [hch]
  exact anyChildSpanIdEq_mono hca cur₀.children l x hany

theorem sweepQ_est {id x : String} {s : SpanTree} (hinv : ServerSpanIdInv s) :
    SweepQ id x (sweepStep id s x) := by
  intro node cur hx hnode hcur hpar hsrv
  cases hn : alGet s x with
  | none =>
    rw [sweepStep_eq_no_node hx hn] at hnode
    rw [hnode] at hn
    cases hn
  | some node₀ =>
    cases hc : alGet s id with
    | none =>
      rw [sweepStep_eq_no_cur hx hn hc] at hcur
      rw [hcur] at hc
      cases hc
    | some cur₀ =>
      by_cases hgd : node₀.parentSpanId = some id ∧ node₀.isServerSpan = true ∧
          ¬ anyChildSpanIdEq s cur₀.children x = true
      · -- the sweep pushed x: the pushed child now witnesses the guard
        have hpush := sweepStep_eq_push hx hn hc hgd
        rw [hpush] at hnode hcur ⊢
        have hnx : alGet (alModify s id (pushChild x)) x = some node₀ := by
          rw [alGet_alModify, if_neg (fun hc' => hx hc'.symm)]
          exact hn
        rw [hnode] at hnx
        cases hnx
        have hcx : alGet (alModify s id (pushChild x)) id = some (pushChild x cur₀) := by
          rw [alGet_alModify, if_pos rfl, hc]
          rfl
        rw [hcur] at hcx
        cases hcx
        rw [anyChildSpanIdEq_eq]
        refine List.any_eq_true.mpr ⟨x, by simp [pushChild], ?_⟩
        rw [alGet_alModify, if_neg (fun hc' => hx hc'.symm), hn]
        have : node.spanId = some x := hinv x node hn hsrv
        simp [this]
      · -- nothing to do for x: the guard either already fails or is blocked
        have hid : sweepStep id s x = s := by
          by_cases hx' : x = id
          · exact sweepStep_eq_self s hx'
          · exact sweepStep_eq_no_guard hx' hn hc hgd
        rw [hid] at hnode hcur ⊢
        rw [hnode] at hn
        cases hn
        rw [hcur] at hc
        cases hc
        by_contra hnot
        exact hgd ⟨hpar, hsrv, fun h => hnot h⟩

theorem sweepQ_foldl_pres {id x : String} :
    ∀ (ks : List String) (s : SpanTree), SweepQ id x s →
      SweepQ id x (ks.foldl (sweepStep id) s) := by
  intro ks
  induction ks with
  | nil => intro s h; exact h
  | cons k ks ih =>
    intro s h
    exact ih _ (sweepQ_mono k h)

theorem serverSpanIdInv_foldl_sweep {id : String} :
    ∀ (ks : List String) (s : SpanTree), ServerSpanIdInv s →
      ServerSpanIdInv (ks.foldl (sweepStep id) s) := by
  intro ks
  induction ks with
  | nil => intro s h; exact h
  | cons k ks ih =>
    intro s h
    exact ih _ (serverSpanIdInv_of_coreAgree (coreAgree_sweepStep id s k) h)

theorem sweepQ_establishes {id : String} :
    ∀ (ks : List String) (s : SpanTree), ServerSpanIdInv s →
      ∀ x ∈ ks, SweepQ id x (ks.foldl (sweepStep id) s) := by
  intro ks
  induction ks with
  | nil => intro s _ x hx; cases hx
  | cons k ks ih =>
    intro s hinv x hx
    rw [List.foldl_cons]
    rcases List.mem_cons.mp hx with rfl | hx
    · exact sweepQ_foldl_pres ks _ (sweepQ_est hinv)
    · exact ih _ (serverSpanIdInv_of_coreAgree (coreAgree_sweepStep id s k) hinv) x hx

/-- After a full orphan sweep over a tree with the server-spanId
invariant, the sweep has reached a fixed point. -/
theorem sweepDone_sweepOrphans {t : SpanTree} {id : String} (hinv : ServerSpanIdInv t) :
    SweepDone (sweepOrphans t id) id := by
  intro nodeId node cur hx hnode hcur hpar hsrv
  have hkeys : alKeys (sweepOrphans t id) = alKeys t := (coreAgree_sweepOrphans t id).1.symm
  have hmem : nodeId ∈ alKeys t := by
    rw [← hkeys]
    exact mem_alKeys_of_get_some hnode
  exact sweepQ_establishes (alKeys t) t hinv nodeId hmem node cur hx hnode hcur hpar hsrv

theorem alSet_alSet_self {α : Type} (l : List (String × α)) (k : String) (v w : α) :
    alSet (alSet l k v) k w = alSet l k w := by
  induction l with
  | nil => simp [alSet]
  | cons p t ih =>
    obtain ⟨k0, v0⟩ := p
    by_cases h0 : k0 = k <;> simp [alSet, h0, ih]

/-- A span-end is a no-op on a state whose node already carries this end
with `isActive = false` and whose parent-attach is settled. -/
theorem applySpanEnd_eq_self {d : Span} {st : EngineState} {id : String} {n₂ : SpanNode}
    {ss₂ : ServerSpanData} (hid : d.spanId = some id) (hne : id ≠ "")
    (hget : alGet st.tree id = some n₂) (hss : n₂.serverSpan = some ss₂)
    (hend : ss₂.«end» = some d) (hact : ss₂.isActive = false)
    (hatt : attachChildBySpanId st.tree (d.parentSpan.map ParentSpanRef.spanId) id id =
      st.tree) :
    applySpanEnd d st = st := by
  rw [applySpanEnd_eq_update hid hne hget hss]
  have hss_fix : ({ ss₂ with «end» := some d, isActive := false } : ServerSpanData) = ss₂ := by
    obtain ⟨s1, s2, s3⟩ := ss₂
    simp only at hend hact
    simp [hend, hact]
  rw [hss_fix]
  have hnode : ({ n₂ with serverSpan := some ss₂ } : SpanNode) = n₂ := by
    refine SpanNode.eq_of_fields ?_ rfl rfl rfl rfl rfl rfl
    rw [hss]
  rw [hnode, alSet_get_self hget, hatt]

/-- Idempotence of the span-end handler on well-formed trees. -/
theorem spanEnd_idem (st : EngineState) (hwf : WFTree st.tree) (d : Span) :
    applySpanEnd d (applySpanEnd d st) = applySpanEnd d st := by
  cases htr : truthy d.spanId with
  | none => rw [applySpanEnd_eq_falsy htr, applySpanEnd_eq_falsy htr]
  | some id =>
    obtain ⟨hid, hne⟩ := truthy_eq_some htr
    cases hget : alGet st.tree id with
    | none =>
      rw [applySpanEnd_eq_buffer hid hne hget,
        @applySpanEnd_eq_buffer d ⟨st.tree, alSet st.pending id d⟩ id hid hne hget,
        alSet_alSet_self]
    | some n =>
      have hwfn := hwf.get hget
      cases hss : n.serverSpan with
      | some ss =>
        rw [applySpanEnd_eq_update hid hne hget hss]
        have hget1 : alGet (alSet st.tree id
            { n with serverSpan := some { ss with «end» := some d, isActive := false } }) id =
            some { n with serverSpan := some { ss with «end» := some d, isActive := false } } := by
          rw [alGet_alSet, if_pos rfl]
        obtain ⟨n₂, hg₂, hcore₂⟩ := (coreAgree_attach
          (alSet st.tree id
            { n with serverSpan := some { ss with «end» := some d, isActive := false } })
          (d.parentSpan.map ParentSpanRef.spanId) id id).get_some hget1
        have hss₂ : n₂.serverSpan = some { ss with «end» := some d, isActive := false } :=
          congrArg Prod.fst hcore₂
        have hsrv : n.isServerSpan = true := hwfn.2.1 (by rw [hss]; rfl)
        exact applySpanEnd_eq_self hid hne hg₂ hss₂ rfl rfl
          (attach_noop (d.parentSpan.map ParentSpanRef.spanId) id
            (CoreAgree.refl _) (childrenExtend_refl _) ⟨_, hget1, hwfn.1 hsrv⟩)
      | none =>
        rw [applySpanEnd_eq_create hid hne hget hss]
        have hget1 : alGet (alSet st.tree id
            { n with
              serverSpan := some { start := none, «end» := some d, isActive := false },
              isServerSpan := true, spanId := some id,
              parentSpanId := d.parentSpan.map ParentSpanRef.spanId }) id =
            some { n with
              serverSpan := some { start := none, «end» := some d, isActive := false },
              isServerSpan := true, spanId := some id,
              parentSpanId := d.parentSpan.map ParentSpanRef.spanId } := by
          rw [alGet_alSet, if_pos rfl]
        obtain ⟨n₂, hg₂, hcore₂⟩ := (coreAgree_attach (alSet st.tree id
            { n with
              serverSpan := some { start := none, «end» := some d, isActive := false },
              isServerSpan := true, spanId := some id,
              parentSpanId := d.parentSpan.map ParentSpanRef.spanId })
          (d.parentSpan.map ParentSpanRef.spanId) id id).get_some hget1
        have hss₂ : n₂.serverSpan =
            some { start := none, «end» := some d, isActive := false } :=
          congrArg Prod.fst hcore₂
        exact applySpanEnd_eq_self hid hne hg₂ hss₂ rfl rfl
          (attach_noop (d.parentSpan.map ParentSpanRef.spanId) id
            (CoreAgree.refl _) (childrenExtend_refl _) ⟨_, hget1, rfl⟩)

/-- Unfolding equation of the request handler. -/
theorem applyRequest_eq (d : RequestSpan) (st : EngineState) :
    applyRequest d st = ⟨attachChildByRequestId
      (alSet st.tree d.id
        { (alGet st.tree d.id).getD (freshHttpNode d.spanId d.spanId) with
          request := some d, parentSpanId := d.spanId })
      d.spanId d.id, st.pending⟩ := rfl

/-- Idempotence of the request handler (no well-formedness needed). -/
theorem request_idem (st : EngineState) (d : RequestSpan) :
    applyRequest d (applyRequest d st) = applyRequest d st := by
  rw [applyRequest_eq d st]
  have hget1 : alGet (alSet st.tree d.id
      { (alGet st.tree d.id).getD (freshHttpNode d.spanId d.spanId) with
        request := some d, parentSpanId := d.spanId }) d.id =
      some { (alGet st.tree d.id).getD (freshHttpNode d.spanId d.spanId) with
        request := some d, parentSpanId := d.spanId } := by
    rw [alGet_alSet, if_pos rfl]
  obtain ⟨n₂, hg₂, hcore₂⟩ := (coreAgree_attachReq
    (alSet st.tree d.id
      { (alGet st.tree d.id).getD (freshHttpNode d.spanId d.spanId) with
        request := some d, parentSpanId := d.spanId })
    d.spanId d.id).get_some hget1
  rw [applyRequest_eq d ⟨_, st.pending⟩]
  show (⟨attachChildByRequestId (alSet _ d.id _) d.spanId d.id, st.pending⟩ : EngineState) = _
  rw [show alGet (attachChildByRequestId
      (alSet st.tree d.id
        { (alGet st.tree d.id).getD (freshHttpNode d.spanId d.spanId) with
          request := some d, parentSpanId := d.spanId })
      d.spanId d.id) d.id = some n₂ from hg₂]
  have hnode : ({ n₂ with request := some d, parentSpanId := d.spanId } : SpanNode) = n₂ := by
    refine SpanNode.eq_of_fields rfl ?_ rfl rfl rfl ?_ rfl
    · exact (congrArg (fun c => c.2.1) hcore₂).symm
    · exact (congrArg (fun c => c.2.2.2.2.1) hcore₂).symm
  rw [show ((some n₂).getD (freshHttpNode d.spanId d.spanId)) = n₂ from rfl, hnode,
    alSet_get_self hg₂,
    attachReq_noop d.spanId d.id (CoreAgree.refl _) (childrenExtend_refl _)
      ⟨_, hget1, rfl⟩]

/-- Idempotence of the span-start handler on well-formed trees when no
span-end is pending for the started span. -/
theorem spanStart_idem (st : EngineState) (hwf : WFTree st.tree) (d : Span)
    (hpend : ∀ id, truthy d.spanId = some id → alGet st.pending id = none) :
    applySpanStart d (applySpanStart d st) = applySpanStart d st := by
  cases htr : truthy d.spanId with
  | none => rw [applySpanStart_eq_falsy htr, applySpanStart_eq_falsy htr]
  | some id =>
    obtain ⟨hid, hne⟩ := truthy_eq_some htr
    have hp := hpend id htr
    rw [applySpanStart_eq_nopending hid hne hp]
    have hget1 : alGet (alSet st.tree id
        { (alGet st.tree id).getD (freshStartNode id (d.parentSpan.map ParentSpanRef.spanId)) with
          serverSpan := some { start := some d, «end» := none, isActive := true },
          isServerSpan := true, spanId := some id,
          parentSpanId := d.parentSpan.map ParentSpanRef.spanId }) id =
        some { (alGet st.tree id).getD
            (freshStartNode id (d.parentSpan.map ParentSpanRef.spanId)) with
          serverSpan := some { start := some d, «end» := none, isActive := true },
          isServerSpan := true, spanId := some id,
          parentSpanId := d.parentSpan.map ParentSpanRef.spanId } := by
      rw [alGet_alSet, if_pos rfl]
    have hca12 := coreAgree_attach (alSet st.tree id
        { (alGet st.tree id).getD (freshStartNode id (d.parentSpan.map ParentSpanRef.spanId)) with
          serverSpan := some { start := some d, «end» := none, isActive := true },
          isServerSpan := true, spanId := some id,
          parentSpanId := d.parentSpan.map ParentSpanRef.spanId })
      (d.parentSpan.map ParentSpanRef.spanId) id id
    have hca23 := coreAgree_sweepOrphans (attachChildBySpanId (alSet st.tree id
        { (alGet st.tree id).getD (freshStartNode id (d.parentSpan.map ParentSpanRef.spanId)) with
          serverSpan := some { start := some d, «end» := none, isActive := true },
          isServerSpan := true, spanId := some id,
          parentSpanId := d.parentSpan.map ParentSpanRef.spanId })
      (d.parentSpan.map ParentSpanRef.spanId) id id) id
    obtain ⟨n₂, hg₂, hcore₂⟩ := (hca12.trans hca23).get_some hget1
    rw [@applySpanStart_eq_nopending d
      ⟨sweepOrphans (attachChildBySpanId (alSet st.tree id
          { (alGet st.tree id).getD (freshStartNode id (d.parentSpan.map ParentSpanRef.spanId)) with
            serverSpan := some { start := some d, «end» := none, isActive := true },
            isServerSpan := true, spanId := some id,
            parentSpanId := d.parentSpan.map ParentSpanRef.spanId })
        (d.parentSpan.map ParentSpanRef.spanId) id id) id, st.pending⟩
      id hid hne hp]
    rw [hg₂]
    have hnode : ({ (some n₂).getD
        (freshStartNode id (d.parentSpan.map ParentSpanRef.spanId)) with
        serverSpan := some { start := some d, «end» := none, isActive := true },
        isServerSpan := true, spanId := some id,
        parentSpanId := d.parentSpan.map ParentSpanRef.spanId } : SpanNode) = n₂ := by
      refine SpanNode.eq_of_fields ?_ rfl rfl rfl ?_ ?_ ?_
      · exact (congrArg Prod.fst hcore₂).symm
      · exact (congrArg (fun c => c.2.2.2.1) hcore₂).symm
      · exact (congrArg (fun c => c.2.2.2.2.1) hcore₂).symm
      · exact (congrArg (fun c => c.2.2.2.2.2) hcore₂).symm
    rw [hnode, alSet_get_self hg₂]
    have hinv1 : ServerSpanIdInv (alSet st.tree id
        { (alGet st.tree id).getD (freshStartNode id (d.parentSpan.map ParentSpanRef.spanId)) with
          serverSpan := some { start := some d, «end» := none, isActive := true },
          isServerSpan := true, spanId := some id,
          parentSpanId := d.parentSpan.map ParentSpanRef.spanId }) :=
      (ServerSpanIdInv.of_wf hwf).alSet fun _ => rfl
    rw [attach_noop (d.parentSpan.map ParentSpanRef.spanId) id hca23
      (childrenExtend_sweepOrphans _ id) ⟨_, hget1, rfl⟩]
    rw [sweepOrphans_eq_of_done
      (sweepDone_sweepOrphans (serverSpanIdInv_of_coreAgree hca12 hinv1))]

/-- The local `node` value built by the response handler (`spans.ts`
lines 171-181) before reconciliation. -/
def respNode1 (d : ResponseSpan) (t : SpanTree) : SpanNode :=
  { (alGet t d.id).getD (freshHttpNode d.spanId d.spanId) with
    response := some d, parentSpanId := d.spanId }

/-- The tree after the response handler stores its node, before
reconciliation. -/
def respT1 (d : ResponseSpan) (t : SpanTree) : SpanTree :=
  alSet t d.id (respNode1 d t)

theorem applyResponse_eq (d : ResponseSpan) (st : EngineState) :
    applyResponse d st = ⟨responseReconcile (respT1 d st.tree) d.spanId d.id d
      (respNode1 d st.tree).spanId, st.pending⟩ := rfl

theorem respT1_get (d : ResponseSpan) (t : SpanTree) :
    alGet (respT1 d t) d.id = some (respNode1 d t) := by
  unfold respT1
  rw [alGet_alSet, if_pos rfl]

theorem respNode1_request (d : ResponseSpan) (t : SpanTree) :
    (respNode1 d t).request = (alGet t d.id).bind SpanNode.request := by
  unfold respNode1
  cases alGet t d.id <;> rfl

theorem responseReconcile_eq_falsy {t : SpanTree} {pS : Option String} {id : String}
    {data : ResponseSpan} {nsid : Option String} (h : truthy pS = none) :
    responseReconcile t pS id data nsid = t := by
  unfold responseReconcile
  simp only [h]

theorem responseReconcile_eq_no_parent {t : SpanTree} {pS : Option String}
    {pid id : String} {data : ResponseSpan} {nsid : Option String}
    (h : truthy pS = some pid) (hg : alGet t pid = none) :
    responseReconcile t pS id data nsid = t := by
  unfold responseReconcile
  simp only [h, hg]

theorem responseReconcile_eq_not_server {t : SpanTree} {pS : Option String}
    {pid id : String} {data : ResponseSpan} {nsid : Option String} {parent : SpanNode}
    (h : truthy pS = some pid) (hg : alGet t pid = some parent)
    (hsrv : ¬ parent.isServerSpan = true) :
    responseReconcile t pS id data nsid = t := by
  unfold responseReconcile
  simp only [h, hg]
  rw [if_neg (by simp [hsrv])]

theorem responseReconcile_eq_found {t : SpanTree} {pS : Option String}
    {pid id ck : String} {data : ResponseSpan} {nsid : Option String} {parent : SpanNode}
    (h : truthy pS = some pid) (hg : alGet t pid = some parent)
    (hsrv : parent.isServerSpan = true)
    (hfind : findChild t parent.children
      (fun c => c.request.map RequestSpan.id = some id) = some ck) :
    responseReconcile t pS id data nsid =
      alModify t ck fun c => { c with response := some data } := by
  unfold responseReconcile
  simp only [h, hg]
  rw [if_pos hsrv]
  simp only [hfind, Option.orElse, Option.some_orElse]

/-- `findChild` with the request-id predicate, rephrased through the
request projection of the dereferenced child. -/
theorem findChild_req_eq (t : SpanTree) (cs : List String) (i : String) :
    findChild t cs (fun c => c.request.map RequestSpan.id = some i) =
      cs.find? fun ck =>
        decide (((alGet t ck).bind SpanNode.request).map RequestSpan.id = some i) := by
  unfold findChild
  congr 1
  funext ck
  cases alGet t ck <;> simp

theorem findChild_req_congr {t t' : SpanTree}
    (h : ∀ k, (alGet t k).bind SpanNode.request = (alGet t' k).bind SpanNode.request)
    (cs : List String) (i : String) :
    findChild t cs (fun c => c.request.map RequestSpan.id = some i) =
      findChild t' cs (fun c => c.request.map RequestSpan.id = some i) := by
  rw [findChild_req_eq, findChild_req_eq]
  congr 1
  funext ck
  rw [h ck]

theorem anyChildRequestIdEq_congr {t t' : SpanTree}
    (h : ∀ k, (alGet t k).bind SpanNode.request = (alGet t' k).bind SpanNode.request)
    (cs : List String) (i : String) :
    anyChildRequestIdEq t cs i = anyChildRequestIdEq t' cs i := by
  rw [anyChildRequestIdEq_eq, anyChildRequestIdEq_eq]
  congr 1
  funext ck
  rw [h ck]

/-- A positive `children.some(request-id)` check yields a hit for the
corresponding `children.find`. -/
theorem findChild_req_isSome {t : SpanTree} {cs : List String} {i : String}
    (h : anyChildRequestIdEq t cs i = true) :
    ∃ ck, findChild t cs (fun c => c.request.map RequestSpan.id = some i) = some ck := by
  rw [anyChildRequestIdEq_eq] at h
  rw [findChild_req_eq]
  induction cs with
  | nil => simp at h
  | cons a l ih =>
    rw [List.any_cons, Bool.or_eq_true] at h
    by_cases hp : ((alGet t a).bind SpanNode.request).map RequestSpan.id = some i
    · have hpa : decide (((alGet t a).bind SpanNode.request).map RequestSpan.id =
          some i) = true := decide_eq_true hp
      exact ⟨a, by simp only [List.find?, hpa]⟩
    · rcases h with h' | h'
      · exact absurd (of_decide_eq_true h') hp
      · obtain ⟨ck, hck⟩ := ih h'
        have hna : decide (((alGet t a).bind SpanNode.request).map RequestSpan.id =
            some i) = false := decide_eq_false hp
        refine ⟨ck, ?_⟩
        simp only [List.find?, hna]
        exact hck

theorem bind_request_alSet {t : SpanTree} {id : String} {v : SpanNode}
    (hv : v.request = (alGet t id).bind SpanNode.request) (k : String) :
    (alGet (alSet t id v) k).bind SpanNode.request =
      (alGet t k).bind SpanNode.request := by
  rw [alGet_alSet]
  by_cases h : id = k
  · subst h
    rw [if_pos rfl]
    simp [hv]
  · rw [if_neg h]

theorem bind_request_alModify {t : SpanTree} {ck : String} {f : SpanNode → SpanNode}
    (hf : ∀ c, (f c).request = c.request) (k : String) :
    (alGet (alModify t ck f) k).bind SpanNode.request =
      (alGet t k).bind SpanNode.request := by
  rw [alGet_alModify]
  by_cases h : ck = k
  · subst h
    cases hx : alGet t ck <;> simp [hx, hf]
  · rw [if_neg h]

theorem alModify_setResp_idem (t : SpanTree) (ck : String) (d : ResponseSpan) :
    alModify (alModify t ck fun c => { c with response := some d }) ck
      (fun c => { c with response := some d }) =
      alModify t ck fun c => { c with response := some d } := by
  rw [alModify_alModify_self]
  congr 1

/-- `applyResponse` fixes a state whose node for `data.id` is already the
stored response node and whose reconciliation pass is the identity. -/
theorem applyResponse_fix (S : EngineState) (d : ResponseSpan) {n : SpanNode}
    (hn : alGet S.tree d.id = some n) (hr : n.response = some d)
    (hp : n.parentSpanId = d.spanId)
    (hrec : responseReconcile S.tree d.spanId d.id d n.spanId = S.tree) :
    applyResponse d S = S := by
  rw [applyResponse_eq]
  have hnode : respNode1 d S.tree = n := by
    unfold respNode1
    rw [hn]
    exact SpanNode.eq_of_fields rfl rfl hr.symm rfl rfl hp.symm rfl
  have htree : respT1 d S.tree = S.tree := by
    unfold respT1
    rw [hnode]
    exact alSet_get_self hn
  rw [hnode, htree, hrec]

/-- Idempotence of the response handler when the matching request is
already attached to the named server-span parent (the normal
request-then-response flow). -/
theorem response_idem (st : EngineState) (d : ResponseSpan)
    (hresp : ∀ pid, truthy d.spanId = some pid →
      ∀ parent, alGet st.tree pid = some parent → parent.isServerSpan = true →
        anyChildRequestIdEq st.tree parent.children d.id = true) :
    applyResponse d (applyResponse d st) = applyResponse d st := by
  have hbind1 : ∀ k, (alGet (respT1 d st.tree) k).bind SpanNode.request =
      (alGet st.tree k).bind SpanNode.request := by
    intro k
    unfold respT1
    exact bind_request_alSet (respNode1_request d st.tree) k
  cases htr : truthy d.spanId with
  | none =>
    have htree : (applyResponse d st).tree = respT1 d st.tree := by
      rw [applyResponse_eq]
      exact responseReconcile_eq_falsy htr
    have hn : alGet (applyResponse d st).tree d.id = some (respNode1 d st.tree) := by
      rw [htree]
      exact respT1_get d st.tree
    have hrec : responseReconcile (applyResponse d st).tree d.spanId d.id d
        (respNode1 d st.tree).spanId = (applyResponse d st).tree := by
      rw [htree]
      exact responseReconcile_eq_falsy htr
    exact applyResponse_fix _ d hn rfl rfl hrec
  | some pid =>
    have htree1 : (applyResponse d st).tree = responseReconcile (respT1 d st.tree)
        d.spanId d.id d (respNode1 d st.tree).spanId := by
      rw [applyResponse_eq]
    cases hg : alGet (respT1 d st.tree) pid with
    | none =>
      have htree : (applyResponse d st).tree = respT1 d st.tree := by
        rw [htree1]
        exact responseReconcile_eq_no_parent htr hg
      have hn : alGet (applyResponse d st).tree d.id = some (respNode1 d st.tree) := by
        rw [htree]
        exact respT1_get d st.tree
      have hrec : responseReconcile (applyResponse d st).tree d.spanId d.id d
          (respNode1 d st.tree).spanId = (applyResponse d st).tree := by
        rw [htree]
        exact responseReconcile_eq_no_parent htr hg
      exact applyResponse_fix _ d hn rfl rfl hrec
    | some parent =>
      by_cases hsrv : parent.isServerSpan = true
      · have hany : anyChildRequestIdEq (respT1 d st.tree) parent.children d.id =
            true := by
          rw [anyChildRequestIdEq_congr hbind1 parent.children d.id]
          by_cases hdp : d.id = pid
          · rw [← hdp] at hg
            rw [respT1_get] at hg
            cases hg
            cases hB : alGet st.tree d.id with
            | none =>
              exfalso
              unfold respNode1 at hsrv
              rw [hB] at hsrv
              exact absurd hsrv (by simp [freshHttpNode])
            | some n =>
              have hch : (respNode1 d st.tree).children = n.children := by
                unfold respNode1
                rw [hB]
                rfl
              have hsrvn : n.isServerSpan = true := by
                have h2 := hsrv
                unfold respNode1 at h2
                rw [hB] at h2
                exact h2
              rw [hch]
              exact hresp pid htr n (hdp ▸ hB) hsrvn
          · have hg0 : alGet st.tree pid = some parent := by
              unfold respT1 at hg
              rw [alGet_alSet, if_neg hdp] at hg
              exact hg
            exact hresp pid htr parent hg0 hsrv
        obtain ⟨ck, hfind⟩ := findChild_req_isSome hany
        have htree : (applyResponse d st).tree =
            alModify (respT1 d st.tree) ck fun c => { c with response := some d } := by
          rw [htree1]
          exact responseReconcile_eq_found htr hg hsrv hfind
        have hbind2 : ∀ k, (alGet (alModify (respT1 d st.tree) ck
            fun c => { c with response := some d }) k).bind SpanNode.request =
            (alGet (respT1 d st.tree) k).bind SpanNode.request :=
          bind_request_alModify fun _ => rfl
        have hn : alGet (applyResponse d st).tree d.id = some (respNode1 d st.tree) := by
          rw [htree, alGet_alModify]
          by_cases hcd : ck = d.id
          · rw [if_pos hcd, hcd, respT1_get]
            rfl
          · rw [if_neg hcd]
            exact respT1_get d st.tree
        have hfind2 : findChild (alModify (respT1 d st.tree) ck
            fun c => { c with response := some d }) parent.children
            (fun c => c.request.map RequestSpan.id = some d.id) = some ck := by
          rw [findChild_req_congr hbind2 parent.children d.id]
          exact hfind
        have hrec : responseReconcile (applyResponse d st).tree d.spanId d.id d
            (respNode1 d st.tree).spanId = (applyResponse d st).tree := by
          rw [htree]
          by_cases hcp : ck = pid
          · have hg2 : alGet (alModify (respT1 d st.tree) ck
                fun c => { c with response := some d }) pid =
                some { parent with response := some d } := by
              rw [alGet_alModify, if_pos hcp, hcp, hg]
              rfl
            exact (responseReconcile_eq_found htr hg2 hsrv hfind2).trans
              (alModify_setResp_idem _ ck d)
          · have hg2 : alGet (alModify (respT1 d st.tree) ck
                fun c => { c with response := some d }) pid = some parent := by
              rw [alGet_alModify, if_neg hcp]
              exact hg
            exact (responseReconcile_eq_found htr hg2 hsrv hfind2).trans
              (alModify_setResp_idem _ ck d)
        exact applyResponse_fix _ d hn rfl rfl hrec
      · have htree : (applyResponse d st).tree = respT1 d st.tree := by
          rw [htree1]
          exact responseReconcile_eq_not_server htr hg hsrv
        have hn : alGet (applyResponse d st).tree d.id = some (respNode1 d st.tree) := by
          rw [htree]
          exact respT1_get d st.tree
        have hrec : responseReconcile (applyResponse d st).tree d.spanId d.id d
            (respNode1 d st.tree).spanId = (applyResponse d st).tree := by
          rw [htree]
          exact responseReconcile_eq_not_server htr hg hsrv
        exact applyResponse_fix _ d hn rfl rfl hrec

/-- The span-start node value for a fresh key with a pending end `e`. -/
def startNodeFull (id : String) (pS : Option String) (dataS e : Span) : SpanNode :=
  { freshStartNode id pS with
    serverSpan := some { start := some dataS, «end» := some e, isActive := false }
    isServerSpan := true, spanId := some id, parentSpanId := pS }

/-- The span-start node value for a fresh key with no pending end. -/
def startNodeHalf (id : String) (pS : Option String) (dataS : Span) : SpanNode :=
  { freshStartNode id pS with
    serverSpan := some { start := some dataS, «end» := none, isActive := true }
    isServerSpan := true, spanId := some id, parentSpanId := pS }

/-- Modelled from the spec's words for comparison (claim C9): the left
percentage obtained "by linearly mapping `[globalMin, globalMax]` time
range to `[0, 100]`", with `globalMin`/`globalMax` the raw minimum start
and maximum end. -/
def specLeftPct (data : List TimingData) (d : TimingData) : ℚ :=
  ((d.start - minTimeOf data : Int) : ℚ) / ((maxTimeOf data - minTimeOf data : Int) : ℚ) * 100

/-- Modelled from the spec's words for comparison (claim C9): width under
the `[globalMin, globalMax] → [0, 100]` mapping, floored at 1%. -/
def specWidthPct (data : List TimingData) (d : TimingData) : ℚ :=
  max (((d.«end» - d.start : Int) : ℚ) / ((maxTimeOf data - minTimeOf data : Int) : ℚ) * 100) 1

/-- Claim C9 as stated: outside the degenerate case the percentages come
from the `[globalMin, globalMax]` mapping; in the degenerate case every
interval gets its own row. -/
def percentMappingClaim (data : List TimingData) : Prop :=
  (maxTimeOf data ≠ minTimeOf data →
    ∀ p ∈ positionedData data,
      p.left = specLeftPct data p.item ∧ p.width = specWidthPct data p.item) ∧
  (maxTimeOf data = minTimeOf data →
    (positionedData data).Pairwise fun a b => a.row ≠ b.row)

/-- The percentages the code actually computes, divided by the rounded
`timeRangeOf` from the floored/ceiled bounds. -/
def codeLeftPct (data : List TimingData) (d : TimingData) : ℚ :=
  ((d.start - minTimeOf data : Int) : ℚ) / ((timeRangeOf data : Int) : ℚ) * 100

/-- Code width: duration over the rounded time range, floored at 1%. -/
def codeWidthPct (data : List TimingData) (d : TimingData) : ℚ :=
  max (((d.«end» - d.start : Int) : ℚ) / ((timeRangeOf data : Int) : ℚ) * 100) 1

/-- The single interval refuting claim C9's mapping range. -/
def c9Datum : TimingData := { id := "a", start := 0, «end» := 500 }

/-- The layout entry the code computes for `c9Datum`: width 50%, because
the divisor is the range rounded up to 1000. -/
def c9Entry : PositionedTiming :=
  { item := c9Datum, row := 0,
    left := ((0 - 0 : Int) : ℚ) / ((1000 : Int) : ℚ) * 100,
    width := max (((500 - 0 : Int) : ℚ) / ((1000 : Int) : ℚ) * 100) 1 }

/-- Every entry the layout fold emits carries the code's left/width
formulas. -/
theorem packFold_forms (mn tr : Int) :
    ∀ (l : List TimingData) (occ : List (List (Int × Int))) (out : List PositionedTiming),
      (∀ p ∈ out,
        p.left = ((p.item.start - mn : Int) : ℚ) / ((tr : Int) : ℚ) * 100 ∧
        p.width = max (((p.item.«end» - p.item.start : Int) : ℚ) / ((tr : Int) : ℚ) * 100) 1) →
      ∀ p ∈ (l.foldl (packStep mn tr) (occ, out)).2,
        p.left = ((p.item.start - mn : Int) : ℚ) / ((tr : Int) : ℚ) * 100 ∧
        p.width = max (((p.item.«end» - p.item.start : Int) : ℚ) / ((tr : Int) : ℚ) * 100) 1 := by
  intro l
  induction l with
  | nil => intro occ out hout p hp; exact hout p hp
  | cons x l ih =>
    intro occ out hout p hp
    refine ih _ _ ?_ p hp
    intro q hq
    rcases List.mem_append.mp hq with hq | hq
    · exact hout q hq
    · rcases List.mem_singleton.mp hq with rfl
      exact ⟨rfl, rfl⟩

theorem coreAgree_filterChildrenH :
    ∀ (fuel : Nat) (t : SpanTree) (cs : List String),
      CoreAgree t (filterChildrenH fuel t cs).2 := by
  intro fuel
  induction fuel with
  | zero => intro t cs; exact CoreAgree.refl t
  | succ fuel ih =>
    intro t cs
    show CoreAgree t (List.foldl _ t _)
    generalize (cs.filter fun ck =>
      match alGet t ck with
      | some c => nodeKeep c
      | none => false) = kept
    clear cs
    induction kept generalizing t with
    | nil => exact CoreAgree.refl t
    | cons c ks ihk =>
      simp only [List.foldl_cons]
      refine CoreAgree.trans ?_ (ihk _)
      cases hg : alGet t c with
      | none => simp only [hg]; exact CoreAgree.refl t
      | some cnode =>
        simp only [hg]
        refine (ih t cnode.children).trans ?_
        exact coreAgree_alModify_childrenOnly _ c _ (fun n => rfl)

theorem coreAgree_filterEmptySpans (fuel : Nat) (t : SpanTree) :
    CoreAgree t (filterEmptySpans fuel t).2 := by
  unfold filterEmptySpans
  have main : ∀ (ks : List String) (acc : List String × SpanTree), CoreAgree t acc.2 →
      CoreAgree t (ks.foldl (fun acc id =>
        match alGet acc.2 id with
        | some node =>
          if nodeKeep node then
            ((acc.1 ++ [id], alModify (filterChildrenH fuel acc.2 node.children).2 id
              fun n => { n with children := (filterChildrenH fuel acc.2 node.children).1 }) :
                List String × SpanTree)
          else acc
        | none => acc) acc).2 := by
    intro ks
    induction ks with
    | nil => intro acc h; exact h
    | cons k ks ihk =>
      intro acc h
      simp only [List.foldl_cons]
      refine ihk _ ?_
      cases hg : alGet acc.2 k with
      | none => simp only [hg]; exact h
      | some node =>
        simp only [hg]
        by_cases hk : nodeKeep node = true
        · simp only [hk, if_pos]
          refine h.trans ((coreAgree_filterChildrenH fuel acc.2 node.children).trans ?_)
          exact coreAgree_alModify_childrenOnly _ k _ (fun n => rfl)
        · simp only [hk, if_neg]
          exact h
  exact main (alKeys t) ([], t) (CoreAgree.refl t)

/-! ## Claim theorems -/

/-- C7: for every span-end event whose (truthy) `spanId` is not a key of
the current tree, `mapServerEventToSpanTree` buffers the event payload in
the pending-ends side map keyed by the `spanId`, and returns the tree
unchanged — no node is created and no existing node is modified. -/
theorem C7_spanEnd_buffered_tree_unchanged (st : EngineState) (data : Span) (id : String)
    (hid : data.spanId = some id) (hne : id ≠ "") (hmiss : alGet st.tree id = none) :
    mapServerEventToSpanTree (.base (.spanEnd data)) st =
      ⟨st.tree, alSet st.pending id data⟩ :=
  applySpanEnd_eq_buffer hid hne hmiss

theorem C7_witness :
    (mkSpan "x" none).spanId = some "x" ∧ ("x" : String) ≠ "" ∧
      alGet ([] : SpanTree) "x" = none ∧
      mapServerEventToSpanTree (.base (.spanEnd (mkSpan "x" none))) ⟨[], []⟩ =
        ⟨[], alSet [] "x" (mkSpan "x" none)⟩ :=
  ⟨rfl, by decide, rfl,
    C7_spanEnd_buffered_tree_unchanged ⟨[], []⟩ (mkSpan "x" none) "x" rfl (by decide) rfl⟩

/-- C6 counterexample heap: node `a` carries a request and one child
`b`; node `b` is empty (no children, request or response). -/
def c6Tree : SpanTree :=
  [("a", { request := some (mkRequest "a" none "https://x/orders"), children := ["b"] }),
   ("b", emptyNode)]

/-- C6 counterexample: `filterEmptySpans` is *not* pure — filtering
`c6Tree` rebinds node `a`'s children array in place (from `["b"]` to
`[]`), so the input tree observably changes. -/
theorem C6_counterexample :
    (filterEmptySpans 2 c6Tree).2 ≠ c6Tree ∧
      (alGet c6Tree "a").map SpanNode.children = some ["b"] ∧
      (alGet (filterEmptySpans 2 c6Tree).2 "a").map SpanNode.children = some [] := by
  refine ⟨?_, by decide, by decide⟩
  decide

/-- C6 (amended): the filters never add or delete map entries and never
change any node field other than `children`; they do, however, prune
retained nodes' children arrays in place, so the input heap is only
unchanged up to children.  (`filterSpansWithoutChildren` is the identical
function from `src/unnamed/part_019`.) -/
theorem C6_filters_touch_only_children (fuel : Nat) (t : SpanTree) :
    (alKeys (filterEmptySpans fuel t).2 = alKeys t ∧
      ∀ k, (alGet (filterEmptySpans fuel t).2 k).map SpanNode.core =
        (alGet t k).map SpanNode.core) ∧
    (alKeys (filterSpansWithoutChildren fuel t).2 = alKeys t ∧
      ∀ k, (alGet (filterSpansWithoutChildren fuel t).2 k).map SpanNode.core =
        (alGet t k).map SpanNode.core) := by
  have h := coreAgree_filterEmptySpans fuel t
  exact ⟨⟨h.1.symm, fun k => (h.2 k).symm⟩, ⟨h.1.symm, fun k => (h.2 k).symm⟩⟩

/-- C8: the tree `root -> mid -> leaf` built through the engine, with
the leaf request's URL `https://api.x/orders`. -/
def c8Tree : SpanTree :=
  (mapServerEventToSpanTree
    (.base (.request (mkRequest "req1" (some "mid") "https://api.x/orders")))
    (mapServerEventToSpanTree (.base (.spanStart (mkSpan "mid" (some "root"))))
      (mapServerEventToSpanTree (.base (.spanStart (mkSpan "root" none))) ⟨[], []⟩))).tree

/-- C8 counterexample: the claim's unconditional "non-empty needle" is
wrong for whitespace needles.  `" "` is a non-empty needle no node of
the bare one-node tree matches (its lowercased trim is `""`, and a node
with no span name and no request URL matches nothing), yet the filter
returns the original tree, not the empty one. -/
theorem C8_counterexample :
    (" " : String) ≠ "" ∧
      (∀ p ∈ [(("a" : String), emptyNode)],
        nodeMatchesFilter [("a", emptyNode)] (strTrim (strLower " ")) p.2 = false) ∧
      filterSpansByUrl [("a", emptyNode)] " " = [("a", emptyNode)] ∧
      ([(("a" : String), emptyNode)] : SpanTree) ≠ [] := by
  refine ⟨by decide, by decide, by decide, by decide⟩

/-- C8 (amended): the cascade scenario holds — filtering the
`root -> mid -> leaf(url="https://api.x/orders")` tree by `"orders"`
retains exactly the keys `root`, `mid` and `req1` — and for every tree
and every needle whose lowercased, trimmed form is non-empty, if no node
matches the needle the result is the empty tree, not the original. -/
theorem C8_url_filter_cascade_and_empty_result :
    ((alKeys (filterSpansByUrl c8Tree "orders")).Perm ["root", "mid", "req1"] ∧
      alKeys c8Tree = ["root", "mid", "req1"]) ∧
    (∀ (t : SpanTree) (needle : String), strTrim (strLower needle) ≠ "" →
      (∀ p ∈ t, nodeMatchesFilter t (strTrim (strLower needle)) p.2 = false) →
      filterSpansByUrl t needle = []) := by
  constructor
  · exact ⟨by decide, by decide⟩
  · intro t needle hfl hnone
    have hne : ¬ needle = "" := by
      intro h
      subst h
      exact hfl rfl
    unfold filterSpansByUrl
    rw [if_neg hne, if_neg hfl]
    have hgen : ∀ (l : SpanTree) (f : String × SpanNode → Bool),
        (∀ x ∈ l, f x = false) → l.filter f = [] := by
      intro l f hf
      induction l with
      | nil => rfl
      | cons p ps ih =>
        rw [List.filter_cons, hf p (List.mem_cons_self p ps)]
        simp only [Bool.false_eq_true, if_false]
        exact ih fun q hq => hf q (List.mem_cons_of_mem p hq)
    rw [hgen t _ hnone]
    rfl

theorem C8_witness :
    strTrim (strLower "zz") ≠ "" ∧
      (∀ p ∈ [(("a" : String), emptyNode)],
        nodeMatchesFilter [("a", emptyNode)] (strTrim (strLower "zz")) p.2 = false) ∧
      filterSpansByUrl [("a", emptyNode)] "zz" = [] :=
  ⟨by decide, by decide,
    C8_url_filter_cascade_and_empty_result.2 [("a", emptyNode)] "zz" (by decide) (by decide)⟩

/-- C9 counterexample: for the single interval `[0, 500]` the code maps
onto the range rounded up to a multiple of 1000 (here 1000), not onto
`[globalMin, globalMax] = [0, 500]`: the computed width is 50%, while
the claimed mapping gives 100%. -/
theorem C9_counterexample : ¬ percentMappingClaim [c9Datum] := by
  intro h
  have hne : maxTimeOf [c9Datum] ≠ minTimeOf [c9Datum] := by decide
  have hmem : c9Entry ∈ positionedData [c9Datum] := by
    rw [show positionedData [c9Datum] = [c9Entry] from rfl]
    exact List.mem_singleton.mpr rfl
  have hw := (h.1 hne _ hmem).2
  rw [specWidthPct] at hw
  rw [show maxTimeOf [c9Datum] = 500 from rfl, show minTimeOf [c9Datum] = 0 from rfl,
    show c9Entry.item = c9Datum from rfl, show c9Datum.start = 0 from rfl,
    show c9Datum.«end» = 500 from rfl,
    show c9Entry.width = max (((500 - 0 : Int) : ℚ) / ((1000 : Int) : ℚ) * 100) 1
      from rfl] at hw
  norm_num at hw

/-- C9 (amended): the percentages are the linear mapping onto
`[minTime, minTime + timeRange]` where `minTime` is the floored minimum
start and `timeRange` is the bound difference rounded *up to a multiple
of 1000*, with the width floored at 1%; when that rounded range is zero
every interval is assigned its own distinct row. -/
theorem C9_percent_mapping_amended (data : List TimingData) (hne : data ≠ []) :
    (timeRangeOf data ≠ 0 →
      ∀ p ∈ positionedData data,
        p.left = codeLeftPct data p.item ∧ p.width = codeWidthPct data p.item) ∧
    (timeRangeOf data = 0 →
      (positionedData data).Pairwise fun a b => a.row ≠ b.row) := by
  constructor
  · intro htr p hp
    rw [positionedData, if_neg hne, if_neg htr] at hp
    have := packFold_forms (minTimeOf data) (timeRangeOf data)
      (data.insertionSort fun a b => a.start ≤ b.start) [] []
      (by intro q hq; cases hq) p hp
    exact ⟨this.1, this.2⟩
  · intro htr
    rw [positionedData, if_neg hne, if_pos htr, List.pairwise_map]
    have h1 : ((data.insertionSort fun a b => a.start ≤ b.start).enum.map Prod.fst).Nodup := by
      rw [List.enum_map_fst]
      exact List.nodup_range _
    have h2 : ((data.insertionSort fun a b => a.start ≤ b.start).enum).Pairwise
        fun a b => a.1 ≠ b.1 := List.pairwise_map.mp h1
    exact h2.imp fun h => h

theorem C9_witness :
    ([{ id := "w", start := 0, «end» := 1000 }] : List TimingData) ≠ [] ∧
      timeRangeOf [{ id := "w", start := 0, «end» := 1000 }] ≠ 0 ∧
      ∀ p ∈ positionedData [{ id := "w", start := 0, «end» := 1000 }],
        p.left = codeLeftPct [{ id := "w", start := 0, «end» := 1000 }] p.item ∧
        p.width = codeWidthPct [{ id := "w", start := 0, «end» := 1000 }] p.item :=
  ⟨by decide, by decide,
    (C9_percent_mapping_amended [{ id := "w", start := 0, «end» := 1000 }] (by decide)).1
      (by decide)⟩

/-- C10: the pending span-end buffer is process-wide state shared across
tree instances.  Applying a span-end to one tree (where the span is
unknown, so the end is buffered) and then applying the matching
span-start to a *different, fresh* tree yields a node whose
`serverSpan` carries the buffered end and `isActive = false`; applying
the same span-start to a fresh tree with a fresh buffer instead yields
`end = none`, `isActive = true` — the outcome on the second tree depends
on events previously applied to the first. -/
theorem C10_pending_buffer_shared_across_trees (tree1 : SpanTree) (dataE dataS : Span)
    (id : String) (hE : dataE.spanId = some id) (hS : dataS.spanId = some id)
    (hne : id ≠ "") (hmiss : alGet tree1 id = none) :
    ((alGet (mapServerEventToSpanTree (.base (.spanStart dataS))
          ⟨[], (mapServerEventToSpanTree (.base (.spanEnd dataE)) ⟨tree1, []⟩).pending⟩).tree
        id).map SpanNode.serverSpan =
      some (some { start := some dataS, «end» := some dataE, isActive := false })) ∧
    ((alGet (mapServerEventToSpanTree (.base (.spanStart dataS)) ⟨[], []⟩).tree id).map
        SpanNode.serverSpan =
      some (some { start := some dataS, «end» := none, isActive := true })) := by
  have hpend : (mapServerEventToSpanTree (.base (.spanEnd dataE)) ⟨tree1, []⟩).pending =
      [(id, dataE)] := by
    rw [show mapServerEventToSpanTree (.base (.spanEnd dataE)) ⟨tree1, []⟩ =
      applySpanEnd dataE ⟨tree1, []⟩ from rfl, applySpanEnd_eq_buffer hE hne hmiss]
    rfl
  rw [hpend]
  constructor
  · rw [show (mapServerEventToSpanTree (.base (.spanStart dataS)) ⟨[], [(id, dataE)]⟩) =
        applySpanStart dataS ⟨[], [(id, dataE)]⟩ from rfl,
      applySpanStart_serverSpan dataS ⟨[], [(id, dataE)]⟩ id hS hne]
    simp [alGet]
  · rw [show (mapServerEventToSpanTree (.base (.spanStart dataS)) ⟨[], []⟩) =
        applySpanStart dataS ⟨[], []⟩ from rfl,
      applySpanStart_serverSpan dataS ⟨[], []⟩ id hS hne]
    rfl

/-- C2 counterexample: a populated field is lost.  Create a node by a
request with id `x`, complete it with a span-end (its `serverSpan.end`
becomes populated), then deliver a span-start for `x`: the handler
replaces `serverSpan` wholesale (the pending buffer is empty), erasing
the previously populated `end` and re-activating the span. -/
theorem C2_counterexample :
    ((alGet (mapServerEventToSpanTree (.base (.spanEnd (mkSpan "x" none)))
        (mapServerEventToSpanTree (.base (.request (mkRequest "x" none "https://u")))
          ⟨[], []⟩)).tree "x").map (fun n => (n.serverSpan.map ServerSpanData.«end»)) =
      some (some (some (mkSpan "x" none)))) ∧
    ((alGet (mapServerEventToSpanTree (.base (.spanStart (mkSpan "x" none)))
        (mapServerEventToSpanTree (.base (.spanEnd (mkSpan "x" none)))
          (mapServerEventToSpanTree (.base (.request (mkRequest "x" none "https://u")))
            ⟨[], []⟩))).tree "x").map (fun n => (n.serverSpan.map ServerSpanData.«end»)) =
      some (some none)) := by
  refine ⟨by decide, by decide⟩

/-- C2 (amended): the engine never deletes a key, and the fields
`request`, `response`, `serverSpan.start` and `spanId`, once populated,
remain populated after any subsequent event.  (`serverSpan.end`,
`isActive` and `parentSpanId` are *not* preserved: a later span-start
overwrites `serverSpan` wholesale and `parentSpanId` with its own
values, see the counterexample.) -/
theorem C2_keys_monotone_fields_preserved (e : ServerEvent) (st : EngineState) :
    (∀ k, (alGet st.tree k).isSome = true →
      (alGet (mapServerEventToSpanTree e st).tree k).isSome = true) ∧
    (∀ k n, alGet st.tree k = some n →
      ∃ n', alGet (mapServerEventToSpanTree e st).tree k = some n' ∧ FieldMono n n') := by
  have h := treeMono_mapServerEvent e st
  refine ⟨fun k hk => ?_, h⟩
  cases hg : alGet st.tree k with
  | none => rw [hg] at hk; cases hk
  | some n =>
    obtain ⟨n', hg', -⟩ := h k n hg
    rw [hg']
    rfl

theorem C2_witness :
    (alGet ([(("x" : String),
        ({ request := some (mkRequest "x" none "https://u") } : SpanNode))] : SpanTree) "x" =
      some { request := some (mkRequest "x" none "https://u") }) ∧
    ∃ n', alGet (mapServerEventToSpanTree (.base (.spanStart (mkSpan "x" none)))
        ⟨[("x", { request := some (mkRequest "x" none "https://u") })], []⟩).tree "x" =
        some n' ∧
      FieldMono { request := some (mkRequest "x" none "https://u") } n' :=
  ⟨by decide,
    (C2_keys_monotone_fields_preserved (.base (.spanStart (mkSpan "x" none)))
      ⟨[("x", { request := some (mkRequest "x" none "https://u") })], []⟩).2 "x"
      { request := some (mkRequest "x" none "https://u") } (by decide)⟩

/-- C4: for a span unknown to the tree (and with no stale pending end),
delivering span-end before span-start produces exactly the same engine
state as start-then-end, and the resulting node's `serverSpan` has both
`start` and `end` populated with `isActive = false`.  The two events
describe the same span, so they carry the same `spanId` and the same
`parentSpan` reference. -/
theorem C4_end_before_start_equals_start_before_end
    (st : EngineState) (dataS dataE : Span) (id : String)
    (hS : dataS.spanId = some id) (hE : dataE.spanId = some id) (hne : id ≠ "")
    (hfresh : alGet st.tree id = none) (hpendfree : alGet st.pending id = none)
    (hpar : dataE.parentSpan = dataS.parentSpan) :
    mapServerEventToSpanTree (.base (.spanStart dataS))
        (mapServerEventToSpanTree (.base (.spanEnd dataE)) st) =
      mapServerEventToSpanTree (.base (.spanEnd dataE))
        (mapServerEventToSpanTree (.base (.spanStart dataS)) st) ∧
    (alGet (mapServerEventToSpanTree (.base (.spanStart dataS))
        (mapServerEventToSpanTree (.base (.spanEnd dataE)) st)).tree id).map
        SpanNode.serverSpan =
      some (some { start := some dataS, «end» := some dataE, isActive := false }) := by
  simp only [mapServerEventToSpanTree, applyB]
  have hbuf : applySpanEnd dataE st = ⟨st.tree, alSet st.pending id dataE⟩ :=
    applySpanEnd_eq_buffer hE hne hfresh
  have hpS : dataE.parentSpan.map ParentSpanRef.spanId =
      dataS.parentSpan.map ParentSpanRef.spanId := by rw [hpar]
  -- names for the two intermediate trees
  set pS := dataS.parentSpan.map ParentSpanRef.spanId with hpSdef
  set nodeF := startNodeFull id pS dataS dataE with hnodeF
  set nodeH := startNodeHalf id pS dataS with hnodeH
  set t1 := alSet st.tree id nodeH with ht1
  set t3 := sweepOrphans (attachChildBySpanId t1 pS id id) id with ht3
  -- left-hand side: buffer, then start with the pending end attached
  have hlhs : applySpanStart dataS (applySpanEnd dataE st) =
      ⟨sweepOrphans (attachChildBySpanId (alSet st.tree id nodeF) pS id id) id,
        st.pending⟩ := by
    rw [hbuf]
    rw [applySpanStart_eq_pending hS hne
      (by rw [alGet_alSet, if_pos rfl] :
        alGet (⟨st.tree, alSet st.pending id dataE⟩ : EngineState).pending id = some dataE)]
    refine congrArg₂ EngineState.mk ?_ ?_
    · rw [show (⟨st.tree, alSet st.pending id dataE⟩ : EngineState).tree = st.tree from rfl,
        hfresh]
      rfl
    · rw [show (⟨st.tree, alSet st.pending id dataE⟩ : EngineState).pending =
        alSet st.pending id dataE from rfl,
        alErase_alSet_self, alErase_of_get_none hpendfree]
  -- right-hand side: start without a pending end, then update with the end
  have hrhs1 : applySpanStart dataS st = ⟨t3, st.pending⟩ := by
    rw [applySpanStart_eq_nopending hS hne hpendfree, ht3, ht1, hnodeH]
    rw [hfresh]
    rfl
  have hget1 : alGet t1 id = some nodeH := by rw [ht1, alGet_alSet, if_pos rfl]
  have hca : CoreAgree t1 t3 :=
    (coreAgree_attach t1 pS id id).trans (coreAgree_sweepOrphans _ id)
  obtain ⟨n', hgn', hcore⟩ := hca.get_some hget1
  have hss' : n'.serverSpan = some { start := some dataS, «end» := none, isActive := true } :=
    congrArg Prod.fst hcore
  have hrhs : applySpanEnd dataE (applySpanStart dataS st) =
      ⟨attachChildBySpanId (alSet t3 id (setSS
          (some { start := some dataS, «end» := some dataE, isActive := false }) n'))
        pS id id, st.pending⟩ := by
    rw [hrhs1]
    rw [applySpanEnd_eq_update hE hne (by exact hgn') hss']
    rw [show Option.map ParentSpanRef.spanId dataE.parentSpan = pS from hpS]
    rfl
  -- reduce both sides to `alModify t3 id (setSS ssFull)`
  set g : SpanNode → SpanNode :=
    setSS (some { start := some dataS, «end» := some dataE, isActive := false }) with hgdef
  have hnoop : attachChildBySpanId t3 pS id id = t3 := by
    rw [ht3]
    exact attach_noop pS id (coreAgree_sweepOrphans _ id) (childrenExtend_sweepOrphans _ id)
      ⟨nodeH, hget1, rfl⟩
  have hlhs2 : sweepOrphans (attachChildBySpanId (alSet st.tree id nodeF) pS id id) id =
      alModify t3 id g := by
    have hfg : alSet st.tree id nodeF = alModify t1 id g := by
      rw [ht1, alModify_alSet_self]
      rfl
    rw [hfg, attach_alModify_setSS, sweepOrphans_alModify_setSS, ht3]
  have hrhs2 : attachChildBySpanId (alSet t3 id (setSS
      (some { start := some dataS, «end» := some dataE, isActive := false }) n'))
      pS id id = alModify t3 id g := by
    rw [alSet_of_get_some hgn', hgdef, attach_alModify_setSS, hnoop]
  constructor
  · rw [hlhs, hrhs, hlhs2, hrhs2]
  · rw [hlhs, hlhs2]
    show (alGet (alModify t3 id g) id).map SpanNode.serverSpan = _
    rw [alGet_alModify, if_pos rfl, hgn']
    rfl

theorem C4_witness :
    (mkSpan "a" (some "p")).spanId = some "a" ∧ ("a" : String) ≠ "" ∧
      alGet ([] : SpanTree) "a" = none ∧
      mapServerEventToSpanTree (.base (.spanStart (mkSpan "a" (some "p"))))
          (mapServerEventToSpanTree (.base (.spanEnd (mkSpan "a" (some "p")))) ⟨[], []⟩) =
        mapServerEventToSpanTree (.base (.spanEnd (mkSpan "a" (some "p"))))
          (mapServerEventToSpanTree (.base (.spanStart (mkSpan "a" (some "p")))) ⟨[], []⟩) ∧
      (alGet (mapServerEventToSpanTree (.base (.spanStart (mkSpan "a" (some "p"))))
          (mapServerEventToSpanTree (.base (.spanEnd (mkSpan "a" (some "p")))) ⟨[], []⟩)).tree
          "a").map SpanNode.serverSpan =
        some (some
          { start := some (mkSpan "a" (some "p")), «end» := some (mkSpan "a" (some "p")),
            isActive := false }) :=
  ⟨rfl, by decide, rfl,
    (C4_end_before_start_equals_start_before_end ⟨[], []⟩ (mkSpan "a" (some "p"))
      (mkSpan "a" (some "p")) "a" rfl rfl (by decide) rfl rfl rfl).1,
    (C4_end_before_start_equals_start_before_end ⟨[], []⟩ (mkSpan "a" (some "p"))
      (mkSpan "a" (some "p")) "a" rfl rfl (by decide) rfl rfl rfl).2⟩

/-- C5: starting from an empty engine state, a parent span-start `dP`
(spanId `p`, no parent) and a child span-start `dC` (spanId `c`,
`parentSpan.spanId = p`) leave the parent's children equal to `[c]` in
either delivery order, and delivering the child three times still leaves
the parent with exactly one child entry. -/
theorem C5_parent_resolution_commutes_no_duplicate_edges (dP dC : Span) (p c : String)
    (hP : dP.spanId = some p) (hC : dC.spanId = some c) (hpne : p ≠ "") (hcne : c ≠ "")
    (hne : ¬ p = c) (hPpar : dP.parentSpan = none) (tr : String)
    (hCpar : dC.parentSpan = some ⟨p, tr⟩) :
    ((alGet (mapServerEventToSpanTree (.base (.spanStart dC))
        (mapServerEventToSpanTree (.base (.spanStart dP)) ⟨[], []⟩)).tree p).map
        SpanNode.children = some [c]) ∧
    ((alGet (mapServerEventToSpanTree (.base (.spanStart dP))
        (mapServerEventToSpanTree (.base (.spanStart dC)) ⟨[], []⟩)).tree p).map
        SpanNode.children = some [c]) ∧
    ((alGet (mapServerEventToSpanTree (.base (.spanStart dC))
        (mapServerEventToSpanTree (.base (.spanStart dC))
          (mapServerEventToSpanTree (.base (.spanStart dC))
            (mapServerEventToSpanTree (.base (.spanStart dP)) ⟨[], []⟩)))).tree p).map
        (fun n => n.children.length) = some 1) := by
  have hne' : ¬ c = p := fun hc => hne hc.symm
  refine ⟨?_, ?_, ?_⟩ <;>
    simp [mapServerEventToSpanTree, applyB, applySpanStart, truthy, attachChildBySpanId,
      sweepOrphans, sweepStep, anyChildSpanIdEq, alGet, alSet, alModify, alKeys, pushChild,
      freshStartNode, hP, hC, hPpar, hCpar, hpne, hcne, hne, hne']

theorem C5_witness :
    (mkSpan "p" none).spanId = some "p" ∧ (mkSpan "c" (some "p")).spanId = some "c" ∧
      ¬ ("p" : String) = "c" ∧
      ((alGet (mapServerEventToSpanTree (.base (.spanStart (mkSpan "c" (some "p"))))
          (mapServerEventToSpanTree (.base (.spanStart (mkSpan "p" none))) ⟨[], []⟩)).tree
          "p").map SpanNode.children = some ["c"]) ∧
      ((alGet (mapServerEventToSpanTree (.base (.spanStart (mkSpan "p" none)))
          (mapServerEventToSpanTree (.base (.spanStart (mkSpan "c" (some "p")))) ⟨[], []⟩)).tree
          "p").map SpanNode.children = some ["c"]) ∧
      ((alGet (mapServerEventToSpanTree (.base (.spanStart (mkSpan "c" (some "p"))))
          (mapServerEventToSpanTree (.base (.spanStart (mkSpan "c" (some "p"))))
            (mapServerEventToSpanTree (.base (.spanStart (mkSpan "c" (some "p"))))
              (mapServerEventToSpanTree (.base (.spanStart (mkSpan "p" none))) ⟨[], []⟩)))).tree
          "p").map (fun n => n.children.length) = some 1) :=
  ⟨rfl, rfl, by decide,
    (C5_parent_resolution_commutes_no_duplicate_edges (mkSpan "p" none) (mkSpan "c" (some "p"))
      "p" "c" rfl rfl (by decide) (by decide) (by decide) rfl "t" rfl).1,
    (C5_parent_resolution_commutes_no_duplicate_edges (mkSpan "p" none) (mkSpan "c" (some "p"))
      "p" "c" rfl rfl (by decide) (by decide) (by decide) rfl "t" rfl).2.1,
    (C5_parent_resolution_commutes_no_duplicate_edges (mkSpan "p" none) (mkSpan "c" (some "p"))
      "p" "c" rfl rfl (by decide) (by decide) (by decide) rfl "t" rfl).2.2⟩

theorem C10_witness :
    (mkSpan "s" none).spanId = some "s" ∧ ("s" : String) ≠ "" ∧
      alGet ([("other", emptyNode)] : SpanTree) "s" = none ∧
      ((alGet (mapServerEventToSpanTree (.base (.spanStart (mkSpan "s" none)))
            ⟨[], (mapServerEventToSpanTree (.base (.spanEnd (mkSpan "s" none)))
              ⟨[("other", emptyNode)], []⟩).pending⟩).tree "s").map SpanNode.serverSpan =
        some (some
          { start := some (mkSpan "s" none), «end» := some (mkSpan "s" none),
            isActive := false })) ∧
      ((alGet (mapServerEventToSpanTree (.base (.spanStart (mkSpan "s" none)))
            ⟨[], []⟩).tree "s").map SpanNode.serverSpan =
        some (some { start := some (mkSpan "s" none), «end» := none, isActive := true })) :=
  ⟨rfl, by decide, by decide,
    C10_pending_buffer_shared_across_trees [("other", emptyNode)]
      (mkSpan "s" none) (mkSpan "s" none) "s" rfl rfl (by decide) (by decide)⟩


/-- Counterexample state for C1: a lone server-span node `p` with no
children. -/
def c1State : EngineState :=
  ⟨[("p", { isServerSpan := true, spanId := some "p" })], []⟩

/-- Counterexample payload for C1: a response correlated to `r1` whose
containing span is `p`, arriving with no prior request event. -/
def c1Resp : ResponseSpan := mkResponse "r1" (some "p")

/-- C1 counterexample: delivering the same response event twice to a tree
holding its server-span parent pushes the child key `r1` twice (the
response push branch has no duplicate guard), so the double application
differs from the single one. -/
theorem C1_counterexample :
    ¬ (mapServerEventToSpanTree (.base (.response c1Resp))
        (mapServerEventToSpanTree (.base (.response c1Resp)) c1State) =
      mapServerEventToSpanTree (.base (.response c1Resp)) c1State) := by
  decide

/-- C1 (amended): on a well-formed tree, re-delivering the same event is
the identity for span-end and request events unconditionally; for a
span-start event provided no span-end is buffered for its span id; and
for a response event provided its matching request is already attached as
a child of the named server-span parent.  (The unconditional claim is
false: see the response counterexample.) -/
theorem C1_duplicate_delivery_idempotence (st : EngineState) (hwf : WFTree st.tree)
    (e : BEvent)
    (hcond : match e with
      | .spanStart d => ∀ id, truthy d.spanId = some id → alGet st.pending id = none
      | .spanEnd _ => True
      | .request _ => True
      | .response d => ∀ pid, truthy d.spanId = some pid →
          ∀ parent, alGet st.tree pid = some parent → parent.isServerSpan = true →
            anyChildRequestIdEq st.tree parent.children d.id = true) :
    mapServerEventToSpanTree (.base e) (mapServerEventToSpanTree (.base e) st) =
      mapServerEventToSpanTree (.base e) st := by
  cases e with
  | spanStart d => exact spanStart_idem st hwf d hcond
  | spanEnd d => exact spanEnd_idem st hwf d
  | request d => exact request_idem st d
  | response d => exact response_idem st d hcond

theorem C1_witness :
    WFTree ([] : SpanTree) ∧
    mapServerEventToSpanTree (.base (.spanStart (mkSpan "s" none)))
        (mapServerEventToSpanTree (.base (.spanStart (mkSpan "s" none))) ⟨[], []⟩) =
      mapServerEventToSpanTree (.base (.spanStart (mkSpan "s" none))) ⟨[], []⟩ :=
  ⟨fun p hp => absurd hp (List.not_mem_nil p),
   C1_duplicate_delivery_idempotence ⟨[], []⟩
    (fun p hp => absurd hp (List.not_mem_nil p))
    (.spanStart (mkSpan "s" none)) (fun _ _ => rfl)⟩

/-! ## C3: row-packer machinery.  `occGet` reads a row's occupancy list
with the JS out-of-bounds convention (`rowOccupancy[row]` of a missing
row is initialised to `[]`). -/

def occGet (occ : List (List (Int × Int))) (r : Nat) : List (Int × Int) :=
  occ.getD r []

theorem occGet_occInsert : ∀ (occ : List (List (Int × Int))) (r r' : Nat) (iv : Int × Int),
    occGet (occInsert occ r iv) r' =
      if r = r' then occGet occ r ++ [iv] else occGet occ r'
  | [], 0, 0, iv => by
      simp [occInsert, occGet, List.getD_cons_zero]
  | [], 0, n+1, iv => by
      simp [occInsert, occGet, List.getD_cons_succ, List.getD_nil]
  | [], rn+1, 0, iv => by
      simp [occInsert, occGet, List.getD_cons_zero, List.getD_nil]
  | [], rn+1, n+1, iv => by
      have h := occGet_occInsert [] rn n iv
      simp only [occGet, List.getD_nil] at h ⊢
      simp only [occInsert, List.getD_cons_succ]
      rw [h]
      by_cases hc : rn = n <;> simp [hc]
  | o :: os, 0, 0, iv => by
      simp [occInsert, occGet, List.getD_cons_zero]
  | o :: os, 0, n+1, iv => by
      simp [occInsert, occGet, List.getD_cons_succ]
  | o :: os, rn+1, 0, iv => by
      simp [occInsert, occGet, List.getD_cons_zero]
  | o :: os, rn+1, n+1, iv => by
      have h := occGet_occInsert os rn n iv
      simp only [occGet] at h ⊢
      simp only [occInsert, List.getD_cons_succ]
      rw [h]
      by_cases hc : rn = n <;> simp [hc]

theorem findRow_overlap_of_lt (occ : List (List (Int × Int))) (s e : Int) :
    ∀ r : Nat, r < findRow occ s e → (occGet occ r).any (occOverlaps s e) = true := by
  induction occ with
  | nil =>
    intro r hr
    simp [findRow] at hr
  | cons o os ih =>
    intro r hr
    by_cases hany : o.any (occOverlaps s e) = true
    · cases r with
      | zero => simpa [occGet, List.getD_cons_zero] using hany
      | succ n =>
        have hr' : n < findRow os s e := by
          unfold findRow at hr
          rw [if_pos hany] at hr
          omega
        simpa [occGet, List.getD_cons_succ] using ih n hr'
    · unfold findRow at hr
      rw [if_neg hany] at hr
      omega

theorem findRow_no_overlap (occ : List (List (Int × Int))) (s e : Int) :
    (occGet occ (findRow occ s e)).any (occOverlaps s e) = false := by
  induction occ with
  | nil => rfl
  | cons o os ih =>
    cases hb : o.any (occOverlaps s e) with
    | true =>
      unfold findRow
      rw [if_pos hb]
      simpa [occGet, List.getD_cons_succ] using ih
    | false =>
      unfold findRow
      rw [if_neg (by simp [hb])]
      simpa [occGet, List.getD_cons_zero] using hb

theorem packStep_fst (minT tr : Int)
    (acc : List (List (Int × Int)) × List PositionedTiming) (x : TimingData) :
    (packStep minT tr acc x).1 =
      occInsert acc.1 (findRow acc.1 x.start x.«end») (x.start, x.«end») := rfl

theorem packStep_snd (minT tr : Int)
    (acc : List (List (Int × Int)) × List PositionedTiming) (x : TimingData) :
    ∃ px : PositionedTiming, (packStep minT tr acc x).2 = acc.2 ++ [px] ∧
      px.item = x ∧ px.row = findRow acc.1 x.start x.«end» :=
  ⟨_, rfl, rfl, rfl⟩

/-- No two entries sharing a row overlap in `[start, end)`. -/
def RowsDisjoint (ps : List PositionedTiming) : Prop :=
  ps.Pairwise fun p q => p.row = q.row →
    ¬ (p.item.start < q.item.«end» ∧ q.item.start < p.item.«end»)

/-- Invariant of the layout fold: the emitted entries have pairwise
row-disjoint intervals; every emitted interval is recorded in its row's
occupancy; every occupancy record comes from an emitted entry; and below
any entry's row, every row holds an earlier-starting entry still running
at the entry's start (the greedy first-fit ladder). -/
def PackInv (acc : List (List (Int × Int)) × List PositionedTiming) : Prop :=
  RowsDisjoint acc.2 ∧
  (∀ p ∈ acc.2, (p.item.start, p.item.«end») ∈ occGet acc.1 p.row) ∧
  (∀ r : Nat, ∀ iv ∈ occGet acc.1 r, ∃ p ∈ acc.2, p.row = r ∧
    iv = (p.item.start, p.item.«end»)) ∧
  (∀ p ∈ acc.2, ∀ r : Nat, r < p.row → ∃ q ∈ acc.2, q.row = r ∧
    q.item.start ≤ p.item.start ∧ p.item.start < q.item.«end»)

theorem packStep_inv (minT tr : Int)
    (acc : List (List (Int × Int)) × List PositionedTiming) (x : TimingData)
    (hinv : PackInv acc) (hle : ∀ p ∈ acc.2, p.item.start ≤ x.start) :
    PackInv (packStep minT tr acc x) := by
  obtain ⟨hdisj, hmem, hocc, hlad⟩ := hinv
  obtain ⟨px, hout, hpitem, hprow⟩ := packStep_snd minT tr acc x
  have hfst := packStep_fst minT tr acc x
  refine ⟨?_, ?_, ?_, ?_⟩
  · rw [hout]
    rw [RowsDisjoint, List.pairwise_append]
    refine ⟨hdisj, List.pairwise_singleton _ _, ?_⟩
    intro p hp q hq hrow hov
    rw [List.mem_singleton] at hq
    subst hq
    have hivp := hmem p hp
    rw [hrow, hprow] at hivp
    have hno := findRow_no_overlap acc.1 x.start x.«end»
    have hovb : occOverlaps x.start x.«end» (p.item.start, p.item.«end») = true := by
      rw [hpitem] at hov
      exact decide_eq_true ⟨hov.2, hov.1⟩
    have : (occGet acc.1 (findRow acc.1 x.start x.«end»)).any (occOverlaps x.start x.«end»)
        = true := List.any_eq_true.mpr ⟨_, hivp, hovb⟩
    rw [hno] at this
    cases this
  · rw [hout, hfst]
    intro p hp
    rcases List.mem_append.mp hp with hp' | hp'
    · rw [occGet_occInsert]
      by_cases hr : findRow acc.1 x.start x.«end» = p.row
      · rw [if_pos hr, hr]
        exact List.mem_append_left _ (hmem p hp')
      · rw [if_neg hr]
        exact hmem p hp'
    · rw [List.mem_singleton] at hp'
      subst hp'
      rw [occGet_occInsert, if_pos hprow.symm, hpitem]
      exact List.mem_append_right _ (List.mem_singleton.mpr rfl)
  · rw [hout, hfst]
    intro r iv hiv
    rw [occGet_occInsert] at hiv
    by_cases hr : findRow acc.1 x.start x.«end» = r
    · rw [if_pos hr] at hiv
      rcases List.mem_append.mp hiv with hiv' | hiv'
      · obtain ⟨p, hp, hpr, hpiv⟩ := hocc _ iv hiv'
        exact ⟨p, List.mem_append_left _ hp, hpr.trans hr, hpiv⟩
      · rw [List.mem_singleton] at hiv'
        refine ⟨px, List.mem_append_right _ (List.mem_singleton.mpr rfl), ?_, ?_⟩
        · rw [hprow]; exact hr
        · rw [hiv', hpitem]
    · rw [if_neg hr] at hiv
      obtain ⟨p, hp, hpr, hpiv⟩ := hocc r iv hiv
      exact ⟨p, List.mem_append_left _ hp, hpr, hpiv⟩
  · rw [hout]
    intro p hp r hr
    rcases List.mem_append.mp hp with hp' | hp'
    · obtain ⟨q, hq, hqr, hqs, hqe⟩ := hlad p hp' r hr
      exact ⟨q, List.mem_append_left _ hq, hqr, hqs, hqe⟩
    · rw [List.mem_singleton] at hp'
      subst hp'
      rw [hprow] at hr
      have hov := findRow_overlap_of_lt acc.1 x.start x.«end» r hr
      obtain ⟨iv, hivmem, hivov⟩ := List.any_eq_true.mp hov
      obtain ⟨q, hq, hqrow, hqiv⟩ := hocc r iv hivmem
      have hd := of_decide_eq_true hivov
      rw [hqiv] at hd
      refine ⟨q, List.mem_append_left _ hq, hqrow, ?_, ?_⟩
      · rw [hpitem]
        exact hle q hq
      · rw [hpitem]
        exact hd.1

theorem packFold_inv (minT tr : Int) (xs : List TimingData)
    (acc : List (List (Int × Int)) × List PositionedTiming) (hinv : PackInv acc)
    (hsort : xs.Pairwise fun a b => a.start ≤ b.start)
    (hcross : ∀ p ∈ acc.2, ∀ y ∈ xs, p.item.start ≤ y.start) :
    PackInv (xs.foldl (packStep minT tr) acc) := by
  induction xs generalizing acc with
  | nil => exact hinv
  | cons x xs ih =>
    rw [List.foldl_cons]
    rcases List.pairwise_cons.mp hsort with ⟨hx, hxs⟩
    refine ih (packStep minT tr acc x)
      (packStep_inv minT tr acc x hinv fun p hp => hcross p hp x (List.mem_cons_self x xs))
      hxs ?_
    obtain ⟨px, hout2, hpitem, -⟩ := packStep_snd minT tr acc x
    rw [hout2]
    intro p hp y hy
    rcases List.mem_append.mp hp with hp' | hp'
    · exact hcross p hp' y (List.mem_cons_of_mem x hy)
    · rw [List.mem_singleton] at hp'
      subst hp'
      rw [hpitem]
      exact hx y hy

theorem packFold_items (minT tr : Int) (xs : List TimingData)
    (acc : List (List (Int × Int)) × List PositionedTiming) :
    ((xs.foldl (packStep minT tr) acc).2).map PositionedTiming.item =
      acc.2.map PositionedTiming.item ++ xs := by
  induction xs generalizing acc with
  | nil => simp
  | cons x xs ih =>
    rw [List.foldl_cons, ih]
    obtain ⟨px, hout2, hpitem, -⟩ := packStep_snd minT tr acc x
    rw [hout2, List.map_append]
    simp [hpitem]

theorem foldl_max_eq_or_mem (ns : List Nat) (a : Nat) :
    ns.foldl max a = a ∨ ns.foldl max a ∈ ns := by
  induction ns generalizing a with
  | nil => exact Or.inl rfl
  | cons n ns ih =>
    rw [List.foldl_cons]
    rcases ih (max a n) with h | h
    · rw [h]
      rcases Nat.le_total a n with hle | hle
      · exact Or.inr (by rw [Nat.max_eq_right hle]; exact List.mem_cons_self n ns)
      · exact Or.inl (Nat.max_eq_left hle)
    · exact Or.inr (List.mem_cons_of_mem n h)

theorem le_foldl_max (ns : List Nat) (a : Nat) :
    a ≤ ns.foldl max a ∧ ∀ n ∈ ns, n ≤ ns.foldl max a := by
  induction ns generalizing a with
  | nil => exact ⟨Nat.le_refl a, fun n hn => absurd hn (List.not_mem_nil n)⟩
  | cons m ns ih =>
    rw [List.foldl_cons]
    obtain ⟨h1, h2⟩ := ih (max a m)
    refine ⟨le_trans (Nat.le_max_left a m) h1, ?_⟩
    intro n hn
    rcases List.mem_cons.mp hn with rfl | hn'
    · exact le_trans (Nat.le_max_right a n) h1
    · exact h2 n hn'

theorem positionedData_eq_pack (data : List TimingData) (hne : data ≠ [])
    (htr : timeRangeOf data ≠ 0) :
    positionedData data = ((data.insertionSort fun a b => a.start ≤ b.start).foldl
      (packStep (minTimeOf data) (timeRangeOf data)) ([], [])).2 := by
  simp only [positionedData, if_neg hne, if_neg htr]

theorem depthAt_eq_filter_out (data : List TimingData) (t : Int)
    (out : List PositionedTiming)
    (hperm : List.Perm (out.map PositionedTiming.item) data) :
    depthAt data t =
      (out.filter fun p => decide (p.item.start ≤ t ∧ t < p.item.«end»)).length := by
  unfold depthAt
  rw [← (hperm.filter _).length_eq, List.filter_map, List.length_map]
  rfl

theorem totalRows_eq_rowMax (data : List TimingData) {out : List PositionedTiming}
    (h : positionedData data = out) (hne : out ≠ []) :
    totalRows data = (out.map PositionedTiming.row).foldl max 0 + 1 := by
  obtain ⟨o1, os, rfl⟩ := List.exists_cons_of_ne_nil hne
  unfold totalRows
  rw [h, List.foldl_map]

/-- The row-packer property claimed by the spec, for one input list: rows
are internally non-overlapping and the row count is exactly the maximum
overlap depth over all instants. -/
def rowPackClaim (data : List TimingData) : Prop :=
  RowsDisjoint (positionedData data) ∧
  (∀ t : Int, depthAt data t ≤ totalRows data) ∧
  (∃ t : Int, depthAt data t = totalRows data)

/-- Counterexample input for C3: a zero-duration interval nested inside a
longer one. -/
def c3Data : List TimingData :=
  [{ id := "a", start := 0, «end» := 10 }, { id := "b", start := 5, «end» := 5 }]

/-- C3 counterexample: with data `[a: [0,10), b: [5,5)]` the time range
rounds to 1000 (non-zero), the zero-length interval `b` still tests as
overlapping `a` (`start < occupant.end && end > occupant.start` holds for
`5 < 10 && 5 > 0`), so the packer uses 2 rows, while `[5,5)` is empty and
the maximum overlap depth over all instants is 1. -/
theorem C3_counterexample : ¬ rowPackClaim c3Data := by
  intro h
  obtain ⟨-, -, t, ht⟩ := h
  have h2 : totalRows c3Data = 2 := by decide
  have h3 : depthAt c3Data t ≤ 1 := by
    have hb : (decide ((5 : Int) ≤ t ∧ t < 5)) = false :=
      decide_eq_false fun hc => absurd (lt_of_le_of_lt hc.1 hc.2) (lt_irrefl 5)
    show (List.filter _ _).length ≤ 1
    rw [show c3Data = [{ id := "a", start := 0, «end» := 10 },
      { id := "b", start := 5, «end» := 5 }] from rfl]
    cases ha : (decide ((0 : Int) ≤ t ∧ t < 10)) <;>
      simp [List.filter, ha, hb]
  rw [h2] at ht
  omega

/-- C3 (amended): for a non-empty input with non-zero rounded time range
whose intervals all have positive duration, the greedy layout is row-wise
non-overlapping and its row count equals the maximum overlap depth,
attained at the start of a maximal-row entry.  (With zero-duration
intervals admitted the second half fails: see the counterexample.) -/
theorem C3_row_packing_amended (data : List TimingData) (hne : data ≠ [])
    (htr : timeRangeOf data ≠ 0)
    (hpos : ∀ d ∈ data, d.start < d.«end») :
    RowsDisjoint (positionedData data) ∧
    (∀ t : Int, depthAt data t ≤ totalRows data) ∧
    (∃ t : Int, depthAt data t = totalRows data) := by
  haveI instTot : IsTotal TimingData (fun a b => a.start ≤ b.start) :=
    ⟨fun a b => Int.le_total a.start b.start⟩
  haveI instTr : IsTrans TimingData (fun a b => a.start ≤ b.start) :=
    ⟨fun a b c hab hbc => le_trans hab hbc⟩
  obtain ⟨out, hout⟩ : ∃ out, positionedData data = out := ⟨_, rfl⟩
  have hpack : out = ((data.insertionSort fun a b => a.start ≤ b.start).foldl
      (packStep (minTimeOf data) (timeRangeOf data)) ([], [])).2 :=
    hout.symm.trans (positionedData_eq_pack data hne htr)
  have hinv : PackInv ((data.insertionSort fun a b => a.start ≤ b.start).foldl
      (packStep (minTimeOf data) (timeRangeOf data)) ([], [])) := by
    refine packFold_inv _ _ _ ([], [])
      ⟨List.Pairwise.nil, ?_, ?_, ?_⟩ ?_ ?_
    · intro p hp
      exact absurd hp (List.not_mem_nil p)
    · intro r iv hiv
      rw [occGet, List.getD_nil] at hiv
      exact absurd hiv (List.not_mem_nil iv)
    · intro p hp
      exact absurd hp (List.not_mem_nil p)
    · exact List.sorted_insertionSort _ data
    · intro p hp
      exact absurd hp (List.not_mem_nil p)
  obtain ⟨hdisj, -, -, hlad⟩ := hinv
  rw [← hpack] at hdisj hlad
  have hitems : out.map PositionedTiming.item =
      data.insertionSort fun a b => a.start ≤ b.start := by
    rw [hpack, packFold_items]
    rfl
  have hperm : List.Perm (out.map PositionedTiming.item) data := by
    rw [hitems]
    exact List.perm_insertionSort _ data
  have hdepth : ∀ t : Int, depthAt data t =
      (out.filter fun p => decide (p.item.start ≤ t ∧ t < p.item.«end»)).length :=
    fun t => depthAt_eq_filter_out data t out hperm
  have houtne : out ≠ [] := by
    intro hnil
    rw [hnil] at hperm
    exact hne (List.Perm.eq_nil hperm.symm)
  have hM := totalRows_eq_rowMax data hout houtne
  have hrow_le : ∀ p ∈ out, p.row ≤ (out.map PositionedTiming.row).foldl max 0 :=
    fun p hp => (le_foldl_max (out.map PositionedTiming.row) 0).2 p.row
      (List.mem_map_of_mem _ hp)
  have hub : ∀ t : Int, depthAt data t ≤ totalRows data := by
    intro t
    rw [hdepth t, hM]
    have hFsub : (out.filter fun p =>
        decide (p.item.start ≤ t ∧ t < p.item.«end»)).Sublist out :=
      List.filter_sublist out
    have hFpair := List.Pairwise.sublist hFsub hdisj
    have hne_rows : (out.filter fun p =>
        decide (p.item.start ≤ t ∧ t < p.item.«end»)).Pairwise
        (fun p q => p.row ≠ q.row) := by
      refine List.Pairwise.imp_of_mem ?_ hFpair
      intro p q hpF hqF hR hrow
      have hpT := of_decide_eq_true (List.mem_filter.mp hpF).2
      have hqT := of_decide_eq_true (List.mem_filter.mp hqF).2
      exact hR hrow ⟨lt_of_le_of_lt hpT.1 hqT.2, lt_of_le_of_lt hqT.1 hpT.2⟩
    have hnodup : ((out.filter fun p =>
        decide (p.item.start ≤ t ∧ t < p.item.«end»)).map
        PositionedTiming.row).Nodup :=
      List.pairwise_map.mpr hne_rows
    have hsubR : ((out.filter fun p =>
        decide (p.item.start ≤ t ∧ t < p.item.«end»)).map
        PositionedTiming.row).toFinset ⊆
        Finset.range ((out.map PositionedTiming.row).foldl max 0 + 1) := by
      intro r hr
      rw [List.mem_toFinset] at hr
      obtain ⟨p, hpF, rfl⟩ := List.mem_map.mp hr
      rw [Finset.mem_range]
      exact Nat.lt_succ_of_le (hrow_le p (List.mem_filter.mp hpF).1)
    calc (out.filter fun p =>
        decide (p.item.start ≤ t ∧ t < p.item.«end»)).length
        = ((out.filter fun p =>
            decide (p.item.start ≤ t ∧ t < p.item.«end»)).map
            PositionedTiming.row).length := (List.length_map _ _).symm
      _ = ((out.filter fun p =>
            decide (p.item.start ≤ t ∧ t < p.item.«end»)).map
            PositionedTiming.row).toFinset.card :=
          (List.toFinset_card_of_nodup hnodup).symm
      _ ≤ (Finset.range ((out.map PositionedTiming.row).foldl max 0 + 1)).card :=
          Finset.card_le_card hsubR
      _ = (out.map PositionedTiming.row).foldl max 0 + 1 := Finset.card_range _
  have hattain : ∃ p ∈ out, p.row = (out.map PositionedTiming.row).foldl max 0 := by
    rcases foldl_max_eq_or_mem (out.map PositionedTiming.row) 0 with h0 | hmem'
    · obtain ⟨o1, os, rfl⟩ := List.exists_cons_of_ne_nil houtne
      refine ⟨o1, List.mem_cons_self o1 os, ?_⟩
      have hb := hrow_le o1 (List.mem_cons_self o1 os)
      omega
    · obtain ⟨p, hp, hpr⟩ := List.mem_map.mp hmem'
      exact ⟨p, hp, hpr⟩
  obtain ⟨pstar, hpstar, hprow⟩ := hattain
  refine ⟨hout ▸ hdisj, hub, ⟨pstar.item.start, ?_⟩⟩
  have hps_pos : pstar.item.start < pstar.item.«end» :=
    hpos pstar.item (hperm.mem_iff.mp (List.mem_map_of_mem _ hpstar))
  have hle : depthAt data pstar.item.start ≤ totalRows data := hub pstar.item.start
  have hge : totalRows data ≤ depthAt data pstar.item.start := by
    rw [hdepth _, hM]
    have hcover : ∀ r : Nat, r < (out.map PositionedTiming.row).foldl max 0 + 1 →
        r ∈ (out.filter fun p =>
          decide (p.item.start ≤ pstar.item.start ∧
            pstar.item.start < p.item.«end»)).map PositionedTiming.row := by
      intro r hr
      rcases Nat.lt_succ_iff_lt_or_eq.mp hr with hrM | hrM
      · obtain ⟨q, hq, hqrow, hqs, hqe⟩ := hlad pstar hpstar r (by rw [hprow]; exact hrM)
        exact List.mem_map.mpr ⟨q,
          List.mem_filter.mpr ⟨hq, decide_eq_true ⟨hqs, hqe⟩⟩, hqrow⟩
      · refine List.mem_map.mpr ⟨pstar,
          List.mem_filter.mpr ⟨hpstar, decide_eq_true ⟨le_refl _, hps_pos⟩⟩, ?_⟩
        rw [hprow, hrM]
    have hsub2 : Finset.range ((out.map PositionedTiming.row).foldl max 0 + 1) ⊆
        ((out.filter fun p =>
          decide (p.item.start ≤ pstar.item.start ∧
            pstar.item.start < p.item.«end»)).map PositionedTiming.row).toFinset :=
      fun r hr => List.mem_toFinset.mpr (hcover r (Finset.mem_range.mp hr))
    calc (out.map PositionedTiming.row).foldl max 0 + 1
        = (Finset.range ((out.map PositionedTiming.row).foldl max 0 + 1)).card :=
          (Finset.card_range _).symm
      _ ≤ ((out.filter fun p =>
            decide (p.item.start ≤ pstar.item.start ∧
              pstar.item.start < p.item.«end»)).map
            PositionedTiming.row).toFinset.card := Finset.card_le_card hsub2
      _ ≤ ((out.filter fun p =>
            decide (p.item.start ≤ pstar.item.start ∧
              pstar.item.start < p.item.«end»)).map
            PositionedTiming.row).length := List.toFinset_card_le _
      _ = (out.filter fun p =>
            decide (p.item.start ≤ pstar.item.start ∧
              pstar.item.start < p.item.«end»)).length := List.length_map _ _
  exact Nat.le_antisymm hle hge

/-- Witness data for C3: two positive-duration overlapping intervals. -/
def c3wData : List TimingData :=
  [{ id := "a", start := 0, «end» := 10 }, { id := "b", start := 5, «end» := 15 }]

theorem C3_witness :
    (c3wData ≠ [] ∧ timeRangeOf c3wData ≠ 0 ∧
      (∀ d ∈ c3wData, d.start < d.«end»)) ∧
    (RowsDisjoint (positionedData c3wData) ∧
      (∀ t : Int, depthAt c3wData t ≤ totalRows c3wData) ∧
      (∃ t : Int, depthAt c3wData t = totalRows c3wData)) :=
  ⟨⟨by decide, by decide, by decide⟩,
   C3_row_packing_amended c3wData (by decide) (by decide) (by decide)⟩

end NND
